import Mathlib

/-!
Verification of the battleships server game logic (server.js) against its
natural-language specification.  The server state machine, placement
validator, shot processor and board projector are shallowly embedded below;
connection identifiers are natural numbers, coordinates are pairs of
integers (the JavaScript key `"r,c"` is injective on integer pairs), and
JavaScript objects / Sets are association lists / lists kept in insertion
order.
-/

/-- The four game phases (`PHASES` in server.js). -/
inductive Phase where
  | lobby
  | placing
  | inProgress
  | finished
deriving DecidableEq

/-- The two seats (player numbers 1 and 2). -/
inductive Seat where
  | one
  | two
deriving DecidableEq

/-- The opposing seat (`viewer === 1 ? 2 : 1` / `pn === 1 ? 2 : 1`). -/
def Seat.other : Seat → Seat
  | .one => .two
  | .two => .one

/-- Client payloads carry the slot as a raw number; the handlers accept
only 1 or 2 (`if (slot !== 1 && slot !== 2) return`). -/
def decodeSeat : Nat → Option Seat
  | 1 => some Seat.one
  | 2 => some Seat.two
  | _ => none

/-- A board coordinate `(r, c)`; server.js keys cells as the string
`r + "," + c`, which is injective on integers. -/
abbrev Coord := Int × Int

/-- A cell of a player's board: `{ shipId, hit }`. -/
structure Cell where
  shipId : String
  hit : Bool
deriving DecidableEq

/-- A ship record: `{ name, size, hits: Set }`; the hit set is kept as a
list in insertion order. -/
structure Ship where
  name : String
  size : Nat
  hits : List Coord
deriving DecidableEq

/-- Per-seat player state (`mkPlayerState` fields). -/
structure Player where
  socketId : Option Nat
  name : Option String
  ready : Bool
  board : List (Coord × Cell)
  ships : List (String × Ship)
  shotsTaken : List Coord
deriving DecidableEq

/-- `mkPlayerState()`. -/
def mkPlayerState : Player :=
  { socketId := none, name := none, ready := false
    board := [], ships := [], shotsTaken := [] }

/-- The whole game state (`initialState()` shape). -/
structure GameState where
  phase : Phase
  player1 : Player
  player2 : Player
  turn : Option Seat
  winner : Option Seat
deriving DecidableEq

/-- `initialState()`. -/
def initialState : GameState :=
  { phase := .lobby, player1 := mkPlayerState, player2 := mkPlayerState
    turn := none, winner := none }

/-- `state.players[pn]`. -/
def GameState.player : GameState → Seat → Player
  | s, .one => s.player1
  | s, .two => s.player2

/-- Replace one seat's player record. -/
def setPlayer (s : GameState) : Seat → Player → GameState
  | .one, p => { s with player1 := p }
  | .two, p => { s with player2 := p }

/-- Association-list lookup (JavaScript object property read). -/
def alookup {β : Type} : List (Coord × β) → Coord → Option β
  | [], _ => none
  | (a, b) :: t, k => if a = k then some b else alookup t k

/-- Association-list lookup keyed by ship id strings. -/
def slookup {β : Type} : List (String × β) → String → Option β
  | [], _ => none
  | (a, b) :: t, k => if a = k then some b else slookup t k

/-- Association-list update of an existing key (JavaScript property
assignment; appends when the key is absent). -/
def aset {β : Type} : List (Coord × β) → Coord → β → List (Coord × β)
  | [], k, v => [(k, v)]
  | (a, b) :: t, k, v => if a = k then (k, v) :: t else (a, b) :: aset t k v

/-- Association-list update for ship maps. -/
def sset {β : Type} : List (String × β) → String → β → List (String × β)
  | [], k, v => [(k, v)]
  | (a, b) :: t, k, v => if a = k then (k, v) :: t else (a, b) :: sset t k v

/-- JavaScript `Set.add`: insert if absent, preserving insertion order. -/
def insertShot (l : List Coord) (k : Coord) : List Coord :=
  if k ∈ l then l else l ++ [k]

/-- One entry of `SHIP_DEFS`. -/
structure ShipDef where
  key : String
  name : String
  size : Nat
deriving DecidableEq

/-- `SHIP_DEFS`. -/
def SHIP_DEFS : List ShipDef :=
  [ ⟨"carrier", "Carrier", 5⟩
  , ⟨"battleship", "Battleship", 4⟩
  , ⟨"cruiser", "Cruiser", 3⟩
  , ⟨"submarine", "Submarine", 3⟩
  , ⟨"destroyer", "Destroyer", 2⟩ ]

/-- The `required` table of `validatePlacement`: `required[key]`
(`none` models the falsy miss). -/
def requiredSize : List ShipDef → String → Option Nat
  | [], _ => none
  | d :: t, k => if d.key = k then some d.size else requiredSize t k

/-- A submitted ship descriptor `{ key, name, cells }`. -/
structure ShipPayload where
  key : String
  name : String
  cells : List Coord
deriving DecidableEq

/-- `rows.every((r) => r === rows[0])`. -/
def rowsAligned : List Coord → Bool
  | [] => true
  | c0 :: rest => (c0 :: rest).all (fun c => c.1 == c0.1)

/-- `cols.every((c) => c === cols[0])`. -/
def colsAligned : List Coord → Bool
  | [] => true
  | c0 :: rest => (c0 :: rest).all (fun c => c.2 == c0.2)

/-- Bounds test: the negation of
`r < 0 || r >= BOARD_SIZE || c < 0 || c >= BOARD_SIZE`. -/
def inBounds (c : Coord) : Bool :=
  (0 ≤ c.1 && c.1 < 10) && (0 ≤ c.2 && c.2 < 10)

/-- The per-cell bounds / overlap loop of `validatePlacement`, threading the
`occupied` set through the whole submission. -/
def cellsCheck (occ : List Coord) : List Coord → Except String (List Coord)
  | [] => .ok occ
  | c :: rest =>
    if ¬ inBounds c then .error "Placement out of bounds."
    else if c ∈ occ then .error "Ships cannot overlap."
    else cellsCheck (occ ++ [c]) rest

/-- Insertion into a sorted list of integers. -/
def insertSorted (x : Int) : List Int → List Int
  | [] => [x]
  | y :: t => if x ≤ y then x :: y :: t else y :: insertSorted x t

/-- Sorting the varying axis of a ship's cells (`cells.slice().sort(...)`). -/
def sortInts (l : List Int) : List Int := l.foldr insertSorted []

/-- Consecutive-run test used by the contiguity loop
(`cur !== prev + 1` rejected pairwise). -/
def consecRun : List Int → Bool
  | [] => true
  | [_] => true
  | a :: b :: t => (b == a + 1) && consecRun (b :: t)

/-- The contiguity check of `validatePlacement`: sort the varying axis and
require a consecutive run. -/
def contiguousOk (sameRow : Bool) (cells : List Coord) : Bool :=
  consecRun (sortInts (cells.map (fun c => if sameRow then c.2 else c.1)))

/-- `${name || key}` for error messages. -/
def shipLabel (sh : ShipPayload) : String :=
  if sh.name = "" then sh.key else sh.name

/-- The main loop of `validatePlacement`, threading `seenKeys` and
`occupied`; returns the final `seenKeys` on success. -/
def validateLoop (seen : List String) (occ : List Coord) :
    List ShipPayload → Except String (List String)
  | [] => .ok seen
  | sh :: rest =>
    match requiredSize SHIP_DEFS sh.key with
    | none => .error ("Unexpected ship key: " ++ sh.key)
    | some sz =>
      if sh.key ∈ seen then .error ("Duplicate ship: " ++ sh.key)
      else if sh.cells.length ≠ sz then .error (shipLabel sh ++ " has incorrect size.")
      else if ¬ rowsAligned sh.cells ∧ ¬ colsAligned sh.cells then
        .error (shipLabel sh ++ " must be straight.")
      else
        match cellsCheck occ sh.cells with
        | .error m => .error m
        | .ok occ2 =>
          if contiguousOk (rowsAligned sh.cells) sh.cells then
            validateLoop (sh.key :: seen) occ2 rest
          else .error "Gaps in ship cells."

/-- The trailing all-required-ships-present loop of `validatePlacement`. -/
def missingKey (seen : List String) : List ShipDef → Option String
  | [] => none
  | d :: t => if d.key ∈ seen then missingKey seen t else some d.key

/-- `validatePlacement(payload)`: `none` means `{ ok: true }`, `some msg`
means `{ ok: false, msg }`. -/
def validatePlacement (payload : List ShipPayload) : Option String :=
  match validateLoop [] [] payload with
  | .error m => some m
  | .ok seen =>
    match missingKey seen SHIP_DEFS with
    | some k => some ("Missing ship: " ++ k)
    | none => none

/-- The ship map built by `setPlacementForPlayer`. -/
def buildShips : List ShipPayload → List (String × Ship)
  | [] => []
  | sh :: t => (sh.key, ⟨sh.name, sh.cells.length, []⟩) :: buildShips t

/-- The board built by `setPlacementForPlayer`. -/
def buildBoard : List ShipPayload → List (Coord × Cell)
  | [] => []
  | sh :: t => sh.cells.map (fun c => (c, ⟨sh.key, false⟩)) ++ buildBoard t

/-- `setPlacementForPlayer(pn, shipsPayload)`: validate, then replace the
seat's board and fleet; returns the error message on failure. -/
def setPlacementForPlayer (s : GameState) (pn : Seat)
    (payload : List ShipPayload) : GameState × Option String :=
  match validatePlacement payload with
  | some msg => (s, some msg)
  | none =>
    (setPlayer s pn
      { s.player pn with board := buildBoard payload, ships := buildShips payload },
     none)

/-- `allShipsSunk(pn)`: every ship's hit-set size equals its size. -/
def allShipsSunk (p : Player) : Bool :=
  p.ships.all (fun e => e.2.hits.length == e.2.size)

/-- The fog entry for one fired coordinate
(`cell && cell.hit ? H : M`). -/
def fogCell (board : List (Coord × Cell)) (k : Coord) : Coord × String :=
  match alookup board k with
  | some cell => if cell.hit then (k, "H") else (k, "M")
  | none => (k, "M")

/-- The fog board sent to `viewer` about the opponent: one entry per shot in
the viewer's own shot history. -/
def fogFor (s : GameState) (viewer : Seat) : List (Coord × String) :=
  (s.player viewer).shotsTaken.map (fogCell (s.player viewer.other).board)

/-- One summarized ship (`summarizeShips` entry). -/
structure ShipSummary where
  name : String
  size : Nat
  hits : List Coord
deriving DecidableEq

/-- `summarizeShips(ships)`. -/
def summarizeShips (ships : List (String × Ship)) : List (String × ShipSummary) :=
  ships.map (fun e => (e.1, ⟨e.2.name, e.2.size, e.2.hits⟩))

/-- The `boards` payload sent to one viewer by `sendPrivateBoards`. -/
structure BoardsPayload where
  youBoard : List (Coord × Cell)
  youShips : List (String × ShipSummary)
  oppFog : List (Coord × String)
deriving DecidableEq

/-- The payload `sendPrivateBoards` builds for `viewer`. -/
def boardsPayloadFor (s : GameState) (viewer : Seat) : BoardsPayload :=
  { youBoard := (s.player viewer).board
    youShips := summarizeShips (s.player viewer).ships
    oppFog := fogFor s viewer }

/-- `scrubPlayer(pn)` entries of the broadcast `state` payload. -/
structure PlayerPublic where
  connected : Bool
  ready : Bool
  name : Option String
deriving DecidableEq

/-- `publicState()` shape. -/
structure PublicState where
  phase : Phase
  turn : Option Seat
  winner : Option Seat
  pub1 : PlayerPublic
  pub2 : PlayerPublic
deriving DecidableEq

/-- `scrubPlayer`. -/
def scrubPlayer (p : Player) : PlayerPublic :=
  { connected := p.socketId.isSome, ready := p.ready, name := p.name }

/-- `publicState()`. -/
def publicState (s : GameState) : PublicState :=
  { phase := s.phase, turn := s.turn, winner := s.winner
    pub1 := scrubPlayer s.player1, pub2 := scrubPlayer s.player2 }

/-- The broadcast `shotResult` record. -/
structure ShotResultMsg where
  by_ : Seat
  at_ : Coord
  result : String
  sunkShip : Option String
  nextTurn : Option Seat
  phase : Phase
  winner : Option Seat
deriving DecidableEq

/-- Outbound message bodies. -/
inductive Msg where
  | notice (kind text : String)
  | joined (slot : Nat)
  | stateB (st : PublicState)
  | boards (b : BoardsPayload)
  | shot (m : ShotResultMsg)
  | chatM (sender text : String)
deriving DecidableEq

/-- An emission: unicast to one socket (`socket.emit` / `io.to(sid).emit`)
or broadcast to all (`io.emit`). -/
inductive Emit where
  | toSid (sid : Nat) (m : Msg)
  | toAll (m : Msg)
deriving DecidableEq

/-- The emissions of `sendPrivateBoards()`: one unicast per seated viewer. -/
def sendPrivateBoards (s : GameState) : List Emit :=
  [Seat.one, Seat.two].filterMap (fun v =>
    match (s.player v).socketId with
    | some sid => some (Emit.toSid sid (.boards (boardsPayloadFor s v)))
    | none => none)

/-- The emission of `broadcast()`. -/
def broadcastEmit (s : GameState) : Emit := .toAll (.stateB (publicState s))

/-- `join`, first effect: if the joining socket already held the other
seat, vacate that seat. -/
def joinVacate (s : GameState) (sid : Nat) (sl : Seat) : GameState :=
  if (s.player sl.other).socketId = some sid
  then setPlayer s sl.other mkPlayerState else s

/-- `join`, second effect: reinitialize the claimed seat for the joining
socket. -/
def joinSeat (s : GameState) (sid slot : Nat) (sl : Seat) : GameState :=
  setPlayer s sl
    { socketId := some sid, name := some ("Player " ++ toString slot)
      ready := false, board := [], ships := [], shotsTaken := [] }

/-- `join`, third effect: promote LOBBY → PLACING once both seats are
occupied. -/
def joinPromote (s : GameState) : GameState :=
  if s.phase = .lobby ∧ (s.player .one).socketId ≠ none ∧
     (s.player .two).socketId ≠ none
  then { s with phase := .placing } else s

/-- The seating body of the `join` handler. -/
def joinBody (s : GameState) (sid slot : Nat) (sl : Seat) : GameState :=
  joinPromote (joinSeat (joinVacate s sid sl) sid slot sl)

/-- The `join` handler. -/
def joinStep (s : GameState) (sid slot : Nat) : GameState × List Emit :=
  match decodeSeat slot with
  | none => (s, [])
  | some sl =>
    if (s.player sl).socketId ≠ none ∧ (s.player sl).socketId ≠ some sid then
      (s, [.toSid sid (.notice "error" "That slot is already taken.")])
    else
      let s3 := joinBody s sid slot sl
      (s3, [.toSid sid (.joined slot), broadcastEmit s3] ++ sendPrivateBoards s3)

/-- The `placeShips` handler. -/
def placeShipsStep (s : GameState) (sid slot : Nat)
    (ships : List ShipPayload) : GameState × List Emit :=
  match decodeSeat slot with
  | none => (s, [])
  | some pn =>
    if (s.player pn).socketId ≠ some sid then (s, [])
    else if s.phase ≠ .placing ∧ s.phase ≠ .lobby then (s, [])
    else
      match setPlacementForPlayer s pn ships with
      | (_, some msg) => (s, [.toSid sid (.notice "error" msg)])
      | (s1, none) =>
        let s2 := setPlayer s1 pn { s1.player pn with ready := false }
        (s2, [broadcastEmit s2] ++ sendPrivateBoards s2 ++
             [.toSid sid (.notice "ok" "Placement saved.")])

/-- The readiness body of the `ready` handler: mark the seat ready and
start the match when both seats are ready, drawing the first turn. -/
def readyBody (s : GameState) (pn coin : Seat) : GameState :=
  let s1 := setPlayer s pn { s.player pn with ready := true }
  if (s1.player .one).ready ∧ (s1.player .two).ready
  then { s1 with phase := .inProgress, turn := some coin } else s1

/-- The `ready` handler; `coin` is the random draw used when both seats
become ready (`Math.random() < 0.5 ? 1 : 2`). -/
def readyStep (s : GameState) (sid slot : Nat) (coin : Seat) :
    GameState × List Emit :=
  match decodeSeat slot with
  | none => (s, [])
  | some pn =>
    if (s.player pn).socketId ≠ some sid then (s, [])
    else if (s.player pn).ships.length ≠ SHIP_DEFS.length then
      (s, [.toSid sid (.notice "error" "Place all ships first.")])
    else
      let s2 := readyBody s pn coin
      (s2, [broadcastEmit s2] ++ sendPrivateBoards s2)

/-- The shot-resolution block of the `fire` handler (lines 340-354):
given the state with the shot already recorded, resolve the shot against
seat `oppn` and return the updated state, result string and sunk-ship
name. -/
def hitResolve (s : GameState) (oppn : Seat) (key : Coord) :
    GameState × String × Option String :=
  let target := s.player oppn
  match alookup target.board key with
  | some cell =>
    if cell.hit then (s, "hit", none)
    else
      let board2 := aset target.board key ⟨cell.shipId, true⟩
      match slookup target.ships cell.shipId with
      | some sh =>
        let hits2 := insertShot sh.hits key
        let ships2 := sset target.ships cell.shipId ⟨sh.name, sh.size, hits2⟩
        (setPlayer s oppn { target with board := board2, ships := ships2 },
         "hit", if hits2.length = sh.size then some sh.name else none)
      | none => (setPlayer s oppn { target with board := board2 }, "hit", none)
  | none => (s, "miss", none)

/-- The accepted-shot body of the `fire` handler: record the shot in the
shooter's history, resolve it against the opponent, then either finish the
match or flip the turn; returns the new state together with the result
string and sunk-ship name. -/
def fireResolve (s : GameState) (pn : Seat) (key : Coord) :
    GameState × String × Option String :=
  let s1 := setPlayer s pn
    { s.player pn with shotsTaken := (s.player pn).shotsTaken ++ [key] }
  let res := hitResolve s1 pn.other key
  let s3 := if allShipsSunk (res.1.player pn.other)
            then { res.1 with phase := .finished, winner := some pn }
            else { res.1 with turn := some pn.other }
  (s3, res.2)

/-- The `fire` handler. -/
def fireStep (s : GameState) (sid slot : Nat) (r c : Int) :
    GameState × List Emit :=
  if s.phase ≠ .inProgress then (s, [])
  else
    match decodeSeat slot with
    | none => (s, [])
    | some pn =>
      if (s.player pn).socketId ≠ some sid then (s, [])
      else if s.turn ≠ some pn then (s, [])
      else
        let key : Coord := (r, c)
        if key ∈ (s.player pn).shotsTaken then
          (s, [.toSid sid (.notice "error" "You already fired there.")])
        else
          let fr := fireResolve s pn key
          (fr.1,
           [.toAll (.shot ⟨pn, key, fr.2.1, fr.2.2, fr.1.turn, fr.1.phase, fr.1.winner⟩)]
           ++ sendPrivateBoards fr.1 ++ [broadcastEmit fr.1])

/-- The `chat` handler: no game-state effect. -/
def chatStep (s : GameState) (sid : Nat) (sender : Option String)
    (text : String) : GameState × List Emit :=
  let clean := text.take 400
  if clean.trim = "" then (s, [])
  else
    let l0 := "Spectator"
    let l1 := if (s.player .one).socketId = some sid then "Player 1" else l0
    let l2 := if (s.player .two).socketId = some sid then "Player 2" else l1
    let name := match sender with
      | some f => if f = "" then l2 else f
      | none => l2
    (s, [.toAll (.chatM name clean)])

/-- `resetGame()`: keep connections and names, rebuild everything else;
phase PLACING when both seats are occupied, else LOBBY. -/
def resetGame (s : GameState) : GameState :=
  let p1 := { mkPlayerState with socketId := (s.player .one).socketId, name := (s.player .one).name }
  let p2 := { mkPlayerState with socketId := (s.player .two).socketId, name := (s.player .two).name }
  let s2 : GameState :=
    { phase := .placing, player1 := p1, player2 := p2, turn := none, winner := none }
  if p1.socketId = none ∨ p2.socketId = none then { s2 with phase := .lobby } else s2

/-- The `reset` handler: only honored from a seated connection. -/
def resetStep (s : GameState) (sid : Nat) : GameState × List Emit :=
  if (s.player .one).socketId = some sid ∨ (s.player .two).socketId = some sid then
    let s2 := resetGame s
    (s2, [broadcastEmit s2])
  else (s, [])

/-- The `disconnect` handler: vacate every seat bound to the leaving
socket; return to LOBBY and clear turn and winner when a seat is vacant. -/
def disconnectStep (s : GameState) (sid : Nat) : GameState × List Emit :=
  let p1 := if (s.player .one).socketId = some sid then mkPlayerState else s.player .one
  let p2 := if (s.player .two).socketId = some sid then mkPlayerState else s.player .two
  let s1 : GameState :=
    { phase := s.phase, player1 := p1, player2 := p2, turn := s.turn, winner := s.winner }
  let s2 := if p1.socketId = none ∨ p2.socketId = none
            then { s1 with phase := .lobby, turn := none, winner := none } else s1
  (s2, [broadcastEmit s2])

/-- The inbound events of the server, each tagged with the connection
identity of the originating socket. -/
inductive Event where
  | join (sid slot : Nat)
  | placeShips (sid slot : Nat) (ships : List ShipPayload)
  | ready (sid slot : Nat) (coin : Seat)
  | fire (sid slot : Nat) (r c : Int)
  | chat (sid : Nat) (sender : Option String) (text : String)
  | reset (sid : Nat)
  | disconnect (sid : Nat)

/-- Dispatch one inbound event. -/
def step (s : GameState) : Event → GameState × List Emit
  | .join sid slot => joinStep s sid slot
  | .placeShips sid slot ships => placeShipsStep s sid slot ships
  | .ready sid slot coin => readyStep s sid slot coin
  | .fire sid slot r c => fireStep s sid slot r c
  | .chat sid sender text => chatStep s sid sender text
  | .reset sid => resetStep s sid
  | .disconnect sid => disconnectStep s sid

/-- The state after one event. -/
def stepState (s : GameState) (e : Event) : GameState := (step s e).1

/-- The emissions of one event. -/
def stepEmits (s : GameState) (e : Event) : List Emit := (step s e).2

/-- Reachable game states: the initial state and everything the event
handlers can produce from it. -/
inductive Reach : GameState → Prop where
  | init : Reach initialState
  | next : ∀ (s : GameState) (e : Event), Reach s → Reach (stepState s e)

/-- Run a list of events from the initial state. -/
def runEvents (es : List Event) : GameState := es.foldl stepState initialState

/-- A concrete legal fleet used in witnesses and counterexamples. -/
def fleetP : List ShipPayload :=
  [ ⟨"carrier", "Carrier", [(0, 0), (0, 1), (0, 2), (0, 3), (0, 4)]⟩
  , ⟨"battleship", "Battleship", [(1, 0), (1, 1), (1, 2), (1, 3)]⟩
  , ⟨"cruiser", "Cruiser", [(2, 0), (2, 1), (2, 2)]⟩
  , ⟨"submarine", "Submarine", [(3, 0), (3, 1), (3, 2)]⟩
  , ⟨"destroyer", "Destroyer", [(4, 0), (4, 1)]⟩ ]

/-- A full pre-game trace: both players join, place the same legal fleet,
and ready up; the second ready's coin gives the turn to seat 2. -/
def ev6 : List Event :=
  [ .join 1 1, .join 2 2
  , .placeShips 1 1 fleetP, .placeShips 2 2 fleetP
  , .ready 1 1 .one, .ready 2 2 .two ]

/-- The in-progress state after `ev6`. -/
def s6 : GameState := runEvents ev6

/-- `s6` after seat 1's socket re-joins its own seat: the reclaim wipes
seat 1's board and fleet while the match stays in progress. -/
def s7 : GameState := stepState s6 (.join 1 1)

/-- `s7` after seat 2 fires at open water: with seat 1's fleet empty,
`allShipsSunk` is vacuously true and the match finishes. -/
def s8 : GameState := stepState s7 (.fire 2 2 9 9)

/-- A short trace where only seat 1 has placed a fleet. -/
def sPlaced : GameState :=
  runEvents [.join 1 1, .join 2 2, .placeShips 1 1 fleetP]

/-- Both seats hold a connection. -/
def bothSeated (s : GameState) : Prop :=
  (s.player .one).socketId ≠ none ∧ (s.player .two).socketId ≠ none

/-- The inductive invariant of the server state machine. -/
structure StateInv (s : GameState) : Prop where
  turn_iff : s.turn ≠ none ↔ (s.phase = .inProgress ∨ s.phase = .finished)
  winner_phase : s.winner ≠ none → (s.phase = .inProgress ∨ s.phase = .finished)
  finished_winner : s.phase = .finished → s.winner ≠ none
  lobby_vacant : s.phase = .lobby → ¬ bothSeated s
  ready_seated : ∀ v : Seat, (s.player v).ready = true → (s.player v).socketId ≠ none
  shots_nodup : ∀ v : Seat, (s.player v).shotsTaken.Nodup

/-- Claim C1 as stated (its load-bearing consequence): in every reachable
FINISHED state, the payload sent to a seated viewer contains the opponent's
full board, so every occupied opponent coordinate appears in the opponent
part of that viewer's payload. -/
def c1FullDisclosureAtFinish : Prop :=
  ∀ (s : GameState) (v : Seat), Reach s → (s.player v).socketId ≠ none →
    s.phase = .finished →
    ∀ (k : Coord) (cell : Cell),
      alookup (s.player v.other).board k = some cell →
      k ∈ (boardsPayloadFor s v).oppFog.map Prod.fst

/-- The replacement player record installed by an accepted placement. -/
def placedPlayer (p : Player) (payload : List ShipPayload) : Player :=
  { p with board := buildBoard payload, ships := buildShips payload }

/-- Claim C2 as stated: in every reachable state, turn is non-null iff the
phase is IN_PROGRESS and winner is non-null iff the phase is FINISHED. -/
def c2TurnWinnerIff : Prop :=
  ∀ s : GameState, Reach s →
    (s.turn ≠ none ↔ s.phase = .inProgress) ∧
    (s.winner ≠ none ↔ s.phase = .finished)

/-- Claim C3 as stated: the only phase transitions are LOBBY → PLACING,
PLACING → IN_PROGRESS, IN_PROGRESS → FINISHED, and any phase → LOBBY. -/
def c3OnlyListedTransitions : Prop :=
  ∀ (s : GameState) (e : Event), Reach s →
    (stepState s e).phase = s.phase
    ∨ (s.phase = .lobby ∧ (stepState s e).phase = .placing)
    ∨ (s.phase = .placing ∧ (stepState s e).phase = .inProgress)
    ∨ (s.phase = .inProgress ∧ (stepState s e).phase = .finished)
    ∨ (stepState s e).phase = .lobby

/-- The phase transitions each event can actually take: the claimed ones
plus reset to PLACING from any phase and the unguarded FINISHED →
IN_PROGRESS restart through ready. -/
def allowedTransition (s s2 : GameState) : Event → Prop
  | .join _ _ => s.phase = .lobby ∧ s2.phase = .placing
  | .ready _ _ _ => (s.phase = .placing ∨ s.phase = .finished) ∧ s2.phase = .inProgress
  | .fire _ _ _ _ => s.phase = .inProgress ∧ s2.phase = .finished
  | .reset _ => s2.phase = .placing ∨ s2.phase = .lobby
  | .disconnect _ => s2.phase = .lobby
  | _ => False

/-- A state with both seats freshly joined, used in witnesses. -/
def sJoined : GameState := runEvents [.join 1 1, .join 2 2]

/-- Claim C9 as stated (the part the code violates): every rejected action
in the error taxonomy is answered with a unicast notice to the originator;
in particular a fire outside IN_PROGRESS (a phase error) yields a notice. -/
def c9AllRejectionsNoticed : Prop :=
  ∀ (s : GameState) (sid slot : Nat) (r c : Int), Reach s →
    s.phase ≠ .inProgress →
    ∃ kind text, Emit.toSid sid (.notice kind text) ∈ (fireStep s sid slot r c).2

/-- Claim C10 as stated (the part the code violates): every disconnect
discards all boards, fleets, shot histories and readiness flags. -/
def c10DisconnectDiscards : Prop :=
  ∀ (s : GameState) (sid : Nat), Reach s → ∀ v : Seat,
    ((stepState s (.disconnect sid)).player v).board = []
    ∧ ((stepState s (.disconnect sid)).player v).ships = []
    ∧ ((stepState s (.disconnect sid)).player v).shotsTaken = []
    ∧ ((stepState s (.disconnect sid)).player v).ready = false

/-- The ship keys of a submission, in order. -/
def shipKeys (p : List ShipPayload) : List String := p.map (fun sh => sh.key)

/-- All cells of a submission, in order. -/
def allCells : List ShipPayload → List Coord
  | [] => []
  | sh :: t => sh.cells ++ allCells t

/-- Spec-side legality of one ship descriptor, from the claim's wording:
a known kind with matching cell count, straight, in bounds, contiguous. -/
def specShipOk (sh : ShipPayload) : Prop :=
  requiredSize SHIP_DEFS sh.key = some sh.cells.length
  ∧ (rowsAligned sh.cells = true ∨ colsAligned sh.cells = true)
  ∧ (∀ x ∈ sh.cells, inBounds x = true)
  ∧ contiguousOk (rowsAligned sh.cells) sh.cells = true

/-- Spec-side legality of a whole submission, from the claim's wording:
every descriptor legal, no kind repeated, no cell claimed twice, and all
five required kinds present. -/
def specLegalPlacement (p : List ShipPayload) : Prop :=
  (∀ sh ∈ p, specShipOk sh)
  ∧ (shipKeys p).Nodup
  ∧ (allCells p).Nodup
  ∧ (∀ d ∈ SHIP_DEFS, d.key ∈ shipKeys p)

/-- The declared size of a ship kind (0 for unknown kinds). -/
def sizeOfKey (k : String) : Nat := (requiredSize SHIP_DEFS k).getD 0

theorem reach_foldl (es : List Event) :
    ∀ s : GameState, Reach s → Reach (es.foldl stepState s) := by
  induction es with
  | nil => intro s hs; exact hs
  | cons e t ih => intro s hs; exact ih (stepState s e) (Reach.next s e hs)

theorem reach_runEvents (es : List Event) : Reach (runEvents es) :=
  reach_foldl es initialState Reach.init

theorem reach_s6 : Reach s6 := reach_runEvents ev6

theorem reach_s7 : Reach s7 := Reach.next s6 (.join 1 1) reach_s6

theorem reach_s8 : Reach s8 := Reach.next s7 (.fire 2 2 9 9) reach_s7

theorem reach_sPlaced : Reach sPlaced :=
  reach_runEvents [.join 1 1, .join 2 2, .placeShips 1 1 fleetP]

theorem setPlayer_phase (s : GameState) (v : Seat) (p : Player) :
    (setPlayer s v p).phase = s.phase := by
  cases v <;> rfl

theorem setPlayer_turn (s : GameState) (v : Seat) (p : Player) :
    (setPlayer s v p).turn = s.turn := by
  cases v <;> rfl

theorem setPlayer_winner (s : GameState) (v : Seat) (p : Player) :
    (setPlayer s v p).winner = s.winner := by
  cases v <;> rfl

theorem player_setPlayer_same (s : GameState) (v : Seat) (p : Player) :
    (setPlayer s v p).player v = p := by
  cases v <;> rfl

theorem player_setPlayer_ne (s : GameState) (v w : Seat) (p : Player)
    (h : w ≠ v) : (setPlayer s v p).player w = s.player w := by
  cases v <;> cases w <;> simp_all [setPlayer, GameState.player]

theorem Seat.other_ne (v : Seat) : v.other ≠ v := by
  cases v <;> decide

theorem Seat.other_other (v : Seat) : v.other.other = v := by
  cases v <;> rfl

theorem fogCell_fst (b : List (Coord × Cell)) (k : Coord) :
    (fogCell b k).1 = k := by
  unfold fogCell
  cases alookup b k with
  | none => rfl
  | some cell => by_cases h : cell.hit <;> simp [h]

theorem fogFor_keys (s : GameState) (v : Seat) :
    (fogFor s v).map Prod.fst = (s.player v).shotsTaken := by
  unfold fogFor
  rw [List.map_map]
  have h : ∀ k ∈ (s.player v).shotsTaken,
      (Prod.fst ∘ fogCell (s.player v.other).board) k = id k := by
    intro k _
    simp [fogCell_fst]
  rw [List.map_congr_left h, List.map_id]

theorem hitResolve_phase (s : GameState) (oppn : Seat) (key : Coord) :
    (hitResolve s oppn key).1.phase = s.phase := by
  simp only [hitResolve]
  split
  · split
    · rfl
    · split <;> simp [setPlayer_phase]
  · rfl

theorem hitResolve_turn (s : GameState) (oppn : Seat) (key : Coord) :
    (hitResolve s oppn key).1.turn = s.turn := by
  simp only [hitResolve]
  split
  · split
    · rfl
    · split <;> simp [setPlayer_turn]
  · rfl

theorem hitResolve_winner (s : GameState) (oppn : Seat) (key : Coord) :
    (hitResolve s oppn key).1.winner = s.winner := by
  simp only [hitResolve]
  split
  · split
    · rfl
    · split <;> simp [setPlayer_winner]
  · rfl

theorem hitResolve_player_ne (s : GameState) (oppn : Seat) (key : Coord)
    (v : Seat) (hv : v ≠ oppn) :
    (hitResolve s oppn key).1.player v = s.player v := by
  simp only [hitResolve]
  split
  · split
    · rfl
    · split <;> simp [player_setPlayer_ne _ _ _ _ hv]
  · rfl

theorem hitResolve_pres (s : GameState) (oppn : Seat) (key : Coord) (v : Seat) :
    ((hitResolve s oppn key).1.player v).socketId = (s.player v).socketId ∧
    ((hitResolve s oppn key).1.player v).ready = (s.player v).ready ∧
    ((hitResolve s oppn key).1.player v).shotsTaken = (s.player v).shotsTaken := by
  by_cases hv : v = oppn
  · subst hv
    simp only [hitResolve]
    split
    · split
      · exact ⟨rfl, rfl, rfl⟩
      · split <;> simp [player_setPlayer_same]
    · exact ⟨rfl, rfl, rfl⟩
  · rw [hitResolve_player_ne s oppn key v hv]
    exact ⟨rfl, rfl, rfl⟩

theorem inv_initial : StateInv initialState := by
  refine ⟨by decide, by decide, by decide, ?_, ?_, ?_⟩
  · intro _
    simp [bothSeated, initialState, GameState.player, mkPlayerState]
  · intro v
    cases v <;> simp [initialState, mkPlayerState, GameState.player]
  · intro v
    cases v <;> simp [initialState, mkPlayerState, GameState.player]

theorem player_withPhase (s : GameState) (ph : Phase) (v : Seat) :
    ({ s with phase := ph } : GameState).player v = s.player v := by
  cases v <;> rfl

theorem player_withPT (s : GameState) (ph : Phase) (t : Option Seat) (v : Seat) :
    ({ s with phase := ph, turn := t } : GameState).player v = s.player v := by
  cases v <;> rfl

theorem player_withPW (s : GameState) (ph : Phase) (w : Option Seat) (v : Seat) :
    ({ s with phase := ph, winner := w } : GameState).player v = s.player v := by
  cases v <;> rfl

theorem player_withTurn (s : GameState) (t : Option Seat) (v : Seat) :
    ({ s with turn := t } : GameState).player v = s.player v := by
  cases v <;> rfl

theorem player_withPTW (s : GameState) (ph : Phase) (t w : Option Seat) (v : Seat) :
    ({ s with phase := ph, turn := t, winner := w } : GameState).player v = s.player v := by
  cases v <;> rfl

theorem joinSV_phase (s : GameState) (sid slot : Nat) (sl : Seat) :
    (joinSeat (joinVacate s sid sl) sid slot sl).phase = s.phase := by
  unfold joinSeat joinVacate
  split <;> simp [setPlayer_phase]

theorem joinSV_turn (s : GameState) (sid slot : Nat) (sl : Seat) :
    (joinSeat (joinVacate s sid sl) sid slot sl).turn = s.turn := by
  unfold joinSeat joinVacate
  split <;> simp [setPlayer_turn]

theorem joinSV_winner (s : GameState) (sid slot : Nat) (sl : Seat) :
    (joinSeat (joinVacate s sid sl) sid slot sl).winner = s.winner := by
  unfold joinSeat joinVacate
  split <;> simp [setPlayer_winner]

theorem joinSV_player (s : GameState) (sid slot : Nat) (sl : Seat) (v : Seat) :
    (((joinSeat (joinVacate s sid sl) sid slot sl).player v).ready = false ∧
      ((joinSeat (joinVacate s sid sl) sid slot sl).player v).shotsTaken = [])
    ∨ (joinSeat (joinVacate s sid sl) sid slot sl).player v = s.player v := by
  unfold joinSeat joinVacate
  by_cases hv : v = sl
  · subst hv
    left
    rw [player_setPlayer_same]
    exact ⟨rfl, rfl⟩
  · rw [player_setPlayer_ne _ _ _ _ hv]
    split
    · by_cases hv2 : v = sl.other
      · subst hv2
        left
        rw [player_setPlayer_same]
        exact ⟨rfl, rfl⟩
      · right
        exact player_setPlayer_ne _ _ _ _ hv2
    · right
      rfl

theorem inv_joinBody (s : GameState) (sid slot : Nat) (sl : Seat)
    (h : StateInv s) : StateInv (joinBody s sid slot sl) := by
  obtain ⟨hti, hwp, hfw, hlv, hrs, hsn⟩ := h
  have hph := joinSV_phase s sid slot sl
  have htu := joinSV_turn s sid slot sl
  have hwi := joinSV_winner s sid slot sl
  have hpl := joinSV_player s sid slot sl
  unfold joinBody joinPromote
  split
  case isTrue hcond =>
    have hlob : s.phase = .lobby := by rw [← hph]; exact hcond.1
    have hturn_none : s.turn = none := by
      by_contra hn
      rcases hti.mp hn with h1 | h1 <;> rw [hlob] at h1 <;> cases h1
    have hwin_none : s.winner = none := by
      by_contra hn
      rcases hwp hn with h1 | h1 <;> rw [hlob] at h1 <;> cases h1
    constructor
    · simp [htu, hturn_none]
    · simp [hwi, hwin_none]
    · simp
    · simp
    · intro v hv
      rw [player_withPhase] at hv ⊢
      rcases hpl v with ⟨hr, _⟩ | he
      · rw [hr] at hv; cases hv
      · rw [he] at hv ⊢; exact hrs v hv
    · intro v
      rw [player_withPhase]
      rcases hpl v with ⟨_, hsh⟩ | he
      · rw [hsh]; exact List.nodup_nil
      · rw [he]; exact hsn v
  case isFalse hcond =>
    constructor
    · rw [htu, hph]; exact hti
    · rw [hwi, hph]; exact hwp
    · rw [hph, hwi]; exact hfw
    · intro hl hb
      unfold bothSeated at hb
      exact hcond ⟨hl, hb.1, hb.2⟩
    · intro v hv
      rcases hpl v with ⟨hr, _⟩ | he
      · rw [hr] at hv; cases hv
      · rw [he] at hv ⊢; exact hrs v hv
    · intro v
      rcases hpl v with ⟨_, hsh⟩ | he
      · rw [hsh]; exact List.nodup_nil
      · rw [he]; exact hsn v

theorem inv_of_pres (s s2 : GameState)
    (hp : s2.phase = s.phase) (ht : s2.turn = s.turn) (hw : s2.winner = s.winner)
    (hpl : ∀ v : Seat, (s2.player v).socketId = (s.player v).socketId ∧
      ((s2.player v).ready = true → (s.player v).ready = true) ∧
      (s2.player v).shotsTaken = (s.player v).shotsTaken)
    (h : StateInv s) : StateInv s2 := by
  obtain ⟨hti, hwp, hfw, hlv, hrs, hsn⟩ := h
  constructor
  · rw [ht, hp]; exact hti
  · rw [hw, hp]; exact hwp
  · rw [hp, hw]; exact hfw
  · intro hl hb
    rw [hp] at hl
    apply hlv hl
    unfold bothSeated at hb ⊢
    rw [(hpl .one).1, (hpl .two).1] at hb
    exact hb
  · intro v hv
    rw [(hpl v).1]
    exact hrs v ((hpl v).2.1 hv)
  · intro v
    rw [(hpl v).2.2]
    exact hsn v

theorem chatStep_state (s : GameState) (sid : Nat) (sender : Option String)
    (text : String) : (chatStep s sid sender text).1 = s := by
  unfold chatStep
  simp only []
  split <;> rfl

theorem setPlacement_phase (s : GameState) (pn : Seat) (payload : List ShipPayload) :
    (setPlacementForPlayer s pn payload).1.phase = s.phase := by
  unfold setPlacementForPlayer
  cases validatePlacement payload with
  | some m => rfl
  | none => simp [setPlayer_phase]

theorem setPlacement_turn (s : GameState) (pn : Seat) (payload : List ShipPayload) :
    (setPlacementForPlayer s pn payload).1.turn = s.turn := by
  unfold setPlacementForPlayer
  cases validatePlacement payload with
  | some m => rfl
  | none => simp [setPlayer_turn]

theorem setPlacement_winner (s : GameState) (pn : Seat) (payload : List ShipPayload) :
    (setPlacementForPlayer s pn payload).1.winner = s.winner := by
  unfold setPlacementForPlayer
  cases validatePlacement payload with
  | some m => rfl
  | none => simp [setPlayer_winner]

theorem setPlacement_pres (s : GameState) (pn : Seat) (payload : List ShipPayload)
    (v : Seat) :
    ((setPlacementForPlayer s pn payload).1.player v).socketId = (s.player v).socketId ∧
    ((setPlacementForPlayer s pn payload).1.player v).ready = (s.player v).ready ∧
    ((setPlacementForPlayer s pn payload).1.player v).shotsTaken = (s.player v).shotsTaken := by
  unfold setPlacementForPlayer
  cases validatePlacement payload with
  | some m => exact ⟨rfl, rfl, rfl⟩
  | none =>
    by_cases hv : v = pn
    · subst hv
      rw [player_setPlayer_same]
      exact ⟨rfl, rfl, rfl⟩
    · simp only []
      rw [player_setPlayer_ne _ _ _ _ hv]
      exact ⟨rfl, rfl, rfl⟩

theorem placeSuccess_pres (s : GameState) (pn : Seat) (payload : List ShipPayload)
    (v : Seat) (s1 : GameState)
    (hs1 : s1 = (setPlacementForPlayer s pn payload).1) :
    ((setPlayer s1 pn { s1.player pn with ready := false }).player v).socketId
        = (s.player v).socketId ∧
    (((setPlayer s1 pn { s1.player pn with ready := false }).player v).ready = true
        → (s.player v).ready = true) ∧
    ((setPlayer s1 pn { s1.player pn with ready := false }).player v).shotsTaken
        = (s.player v).shotsTaken := by
  obtain ⟨ha, hb, hc⟩ := setPlacement_pres s pn payload v
  rw [← hs1] at ha hb hc
  by_cases hv : v = pn
  · subst hv
    rw [player_setPlayer_same]
    refine ⟨?_, ?_, ?_⟩
    · show (s1.player v).socketId = _
      exact ha
    · intro hfalse
      simp at hfalse
    · show (s1.player v).shotsTaken = _
      exact hc
  · rw [player_setPlayer_ne _ _ _ _ hv]
    exact ⟨ha, fun h2 => hb ▸ h2, hc⟩

theorem placeStep_pres (s : GameState) (sid slot : Nat) (payload : List ShipPayload) :
    (placeShipsStep s sid slot payload).1.phase = s.phase ∧
    (placeShipsStep s sid slot payload).1.turn = s.turn ∧
    (placeShipsStep s sid slot payload).1.winner = s.winner ∧
    ∀ v : Seat,
      ((placeShipsStep s sid slot payload).1.player v).socketId = (s.player v).socketId ∧
      (((placeShipsStep s sid slot payload).1.player v).ready = true → (s.player v).ready = true) ∧
      ((placeShipsStep s sid slot payload).1.player v).shotsTaken = (s.player v).shotsTaken := by
  unfold placeShipsStep
  split
  · exact ⟨rfl, rfl, rfl, fun v => ⟨rfl, fun hv => hv, rfl⟩⟩
  · rename_i pn hpn
    split
    · exact ⟨rfl, rfl, rfl, fun v => ⟨rfl, fun hv => hv, rfl⟩⟩
    · split
      · exact ⟨rfl, rfl, rfl, fun v => ⟨rfl, fun hv => hv, rfl⟩⟩
      · split
        · exact ⟨rfl, rfl, rfl, fun v => ⟨rfl, fun hv => hv, rfl⟩⟩
        · rename_i s1 heq
          have hs1 : s1 = (setPlacementForPlayer s pn payload).1 := by
            rw [heq]
          refine ⟨?_, ?_, ?_, fun v => placeSuccess_pres s pn payload v s1 hs1⟩
          · show (setPlayer s1 pn { s1.player pn with ready := false }).phase = s.phase
            rw [setPlayer_phase, hs1, setPlacement_phase]
          · show (setPlayer s1 pn { s1.player pn with ready := false }).turn = s.turn
            rw [setPlayer_turn, hs1, setPlacement_turn]
          · show (setPlayer s1 pn { s1.player pn with ready := false }).winner = s.winner
            rw [setPlayer_winner, hs1, setPlacement_winner]

theorem inv_place (s : GameState) (sid slot : Nat) (payload : List ShipPayload)
    (h : StateInv s) : StateInv (placeShipsStep s sid slot payload).1 := by
  obtain ⟨hp, ht, hw, hpl⟩ := placeStep_pres s sid slot payload
  exact inv_of_pres s _ hp ht hw hpl h

theorem nodup_append_single {α : Type} (l : List α) (a : α)
    (h : l.Nodup) (ha : a ∉ l) : (l ++ [a]).Nodup := by
  rw [List.nodup_append]
  refine ⟨h, List.nodup_singleton a, ?_⟩
  intro x hx hmem
  rw [List.mem_singleton] at hmem
  subst hmem
  exact ha hx

theorem inv_readyBody (s : GameState) (pn coin : Seat)
    (hseated : (s.player pn).socketId ≠ none) (h : StateInv s) :
    StateInv (readyBody s pn coin) := by
  obtain ⟨hti, hwp, hfw, hlv, hrs, hsn⟩ := h
  unfold readyBody
  simp only []
  have hply : ∀ v : Seat,
      ((setPlayer s pn { s.player pn with ready := true }).player v).socketId
        = (s.player v).socketId ∧
      ((setPlayer s pn { s.player pn with ready := true }).player v).shotsTaken
        = (s.player v).shotsTaken := by
    intro v
    by_cases hv : v = pn
    · subst hv; rw [player_setPlayer_same]; exact ⟨rfl, rfl⟩
    · rw [player_setPlayer_ne _ _ _ _ hv]; exact ⟨rfl, rfl⟩
  have hready : ∀ v : Seat,
      ((setPlayer s pn { s.player pn with ready := true }).player v).ready = true
        → (s.player v).socketId ≠ none := by
    intro v hv
    by_cases hvv : v = pn
    · subst hvv; exact hseated
    · rw [player_setPlayer_ne _ _ _ _ hvv] at hv; exact hrs v hv
  split
  case isTrue hcond =>
    constructor
    · constructor
      · intro _; exact Or.inl rfl
      · intro _; simp
    · intro _; exact Or.inl rfl
    · intro hx; exact Phase.noConfusion hx
    · intro hx; exact Phase.noConfusion hx
    · intro v hv
      rw [player_withPT] at hv
      rw [player_withPT, (hply v).1]
      exact hready v hv
    · intro v
      rw [player_withPT, (hply v).2]
      exact hsn v
  case isFalse hcond =>
    constructor
    · rw [setPlayer_turn, setPlayer_phase]; exact hti
    · rw [setPlayer_winner, setPlayer_phase]; exact hwp
    · rw [setPlayer_phase, setPlayer_winner]; exact hfw
    · intro hl hb
      rw [setPlayer_phase] at hl
      apply hlv hl
      unfold bothSeated at hb ⊢
      rw [(hply .one).1, (hply .two).1] at hb
      exact hb
    · intro v hv
      rw [(hply v).1]
      exact hready v hv
    · intro v
      rw [(hply v).2]
      exact hsn v

theorem inv_ready (s : GameState) (sid slot : Nat) (coin : Seat)
    (h : StateInv s) : StateInv (readyStep s sid slot coin).1 := by
  unfold readyStep
  split
  · exact h
  · rename_i pn hpn
    split
    · exact h
    · split
      · exact h
      · rename_i hsock _
        have hseated : (s.player pn).socketId ≠ none := by
          rw [not_not.mp hsock]
          exact Option.some_ne_none sid
        exact inv_readyBody s pn coin hseated h

theorem fireResolve_player (s : GameState) (pn : Seat) (key : Coord) (v : Seat) :
    ((fireResolve s pn key).1.player v).socketId = (s.player v).socketId ∧
    ((fireResolve s pn key).1.player v).ready = (s.player v).ready ∧
    ((fireResolve s pn key).1.player v).shotsTaken =
      (if v = pn then (s.player pn).shotsTaken ++ [key]
       else (s.player v).shotsTaken) := by
  unfold fireResolve
  simp only []
  obtain ⟨ha, hb, hc⟩ := hitResolve_pres
    (setPlayer s pn { s.player pn with shotsTaken := (s.player pn).shotsTaken ++ [key] })
    pn.other key v
  have hsp : ((setPlayer s pn
        { s.player pn with shotsTaken := (s.player pn).shotsTaken ++ [key] }).player v).socketId
        = (s.player v).socketId ∧
      ((setPlayer s pn
        { s.player pn with shotsTaken := (s.player pn).shotsTaken ++ [key] }).player v).ready
        = (s.player v).ready ∧
      ((setPlayer s pn
        { s.player pn with shotsTaken := (s.player pn).shotsTaken ++ [key] }).player v).shotsTaken
        = (if v = pn then (s.player pn).shotsTaken ++ [key]
           else (s.player v).shotsTaken) := by
    by_cases hv : v = pn
    · subst hv
      rw [player_setPlayer_same, if_pos rfl]
      exact ⟨rfl, rfl, rfl⟩
    · rw [player_setPlayer_ne _ _ _ _ hv, if_neg hv]
      exact ⟨rfl, rfl, rfl⟩
  obtain ⟨hd, he, hf⟩ := hsp
  split
  · rw [player_withPW]
    exact ⟨ha.trans hd, hb.trans he, hc.trans hf⟩
  · rw [player_withTurn]
    exact ⟨ha.trans hd, hb.trans he, hc.trans hf⟩

theorem fireResolve_end (s : GameState) (pn : Seat) (key : Coord) :
    ((fireResolve s pn key).1.phase = .finished ∧
     (fireResolve s pn key).1.winner = some pn ∧
     (fireResolve s pn key).1.turn = s.turn ∧
     allShipsSunk ((fireResolve s pn key).1.player pn.other) = true)
    ∨ ((fireResolve s pn key).1.phase = s.phase ∧
       (fireResolve s pn key).1.winner = s.winner ∧
       (fireResolve s pn key).1.turn = some pn.other ∧
       allShipsSunk ((fireResolve s pn key).1.player pn.other) = false) := by
  unfold fireResolve
  simp only []
  split
  case isTrue hsunk =>
    left
    refine ⟨rfl, rfl, ?_, ?_⟩
    · show (hitResolve (setPlayer s pn
        { s.player pn with shotsTaken := (s.player pn).shotsTaken ++ [key] })
        pn.other key).1.turn = s.turn
      rw [hitResolve_turn, setPlayer_turn]
    · rw [player_withPW]
      exact hsunk
  case isFalse hsunk =>
    right
    refine ⟨?_, ?_, rfl, ?_⟩
    · show (hitResolve (setPlayer s pn
        { s.player pn with shotsTaken := (s.player pn).shotsTaken ++ [key] })
        pn.other key).1.phase = s.phase
      rw [hitResolve_phase, setPlayer_phase]
    · show (hitResolve (setPlayer s pn
        { s.player pn with shotsTaken := (s.player pn).shotsTaken ++ [key] })
        pn.other key).1.winner = s.winner
      rw [hitResolve_winner, setPlayer_winner]
    · rw [player_withTurn]
      exact Bool.eq_false_iff.mpr hsunk

theorem inv_fireAccepted (s : GameState) (pn : Seat) (key : Coord)
    (hph : s.phase = .inProgress) (hturn : s.turn = some pn)
    (hmem : key ∉ (s.player pn).shotsTaken) (h : StateInv s) :
    StateInv (fireResolve s pn key).1 := by
  obtain ⟨hti, hwp, hfw, hlv, hrs, hsn⟩ := h
  have hpl := fun v => fireResolve_player s pn key v
  have hshots : ∀ v : Seat, ((fireResolve s pn key).1.player v).shotsTaken.Nodup := by
    intro v
    rw [(hpl v).2.2]
    by_cases hv : v = pn
    · subst hv
      rw [if_pos rfl]
      exact nodup_append_single _ _ (hsn v) hmem
    · rw [if_neg hv]
      exact hsn v
  have hrdy : ∀ v : Seat,
      ((fireResolve s pn key).1.player v).ready = true
        → ((fireResolve s pn key).1.player v).socketId ≠ none := by
    intro v hv
    rw [(hpl v).2.1] at hv
    rw [(hpl v).1]
    exact hrs v hv
  rcases fireResolve_end s pn key with ⟨he1, he2, he3, _⟩ | ⟨he1, he2, he3, _⟩
  · constructor
    · rw [he1, he3, hturn]
      simp
    · intro _
      rw [he1]
      exact Or.inr rfl
    · intro _
      rw [he2]
      exact Option.some_ne_none pn
    · intro hlob
      rw [he1] at hlob
      exact absurd hlob (by decide)
    · exact hrdy
    · exact hshots
  · constructor
    · rw [he1, he3, hph]
      simp
    · intro _
      rw [he1, hph]
      exact Or.inl rfl
    · intro hfin
      rw [he1, hph] at hfin
      exact absurd hfin (by decide)
    · intro hlob
      rw [he1, hph] at hlob
      exact absurd hlob (by decide)
    · exact hrdy
    · exact hshots

theorem inv_fire (s : GameState) (sid slot : Nat) (r c : Int)
    (h : StateInv s) : StateInv (fireStep s sid slot r c).1 := by
  unfold fireStep
  split
  · exact h
  · rename_i hph
    split
    · exact h
    · rename_i pn hpn
      split
      · exact h
      · rename_i hsock
        split
        · exact h
        · rename_i hturn
          simp only []
          split
          · exact h
          · rename_i hmem
            show StateInv (fireResolve s pn (r, c)).1
            exact inv_fireAccepted s pn (r, c) (not_not.mp hph)
              (not_not.mp hturn) hmem h

theorem inv_mkLobby (q1 q2 : Player)
    (hv : q1.socketId = none ∨ q2.socketId = none)
    (hr1 : q1.ready = true → q1.socketId ≠ none)
    (hr2 : q2.ready = true → q2.socketId ≠ none)
    (hn1 : q1.shotsTaken.Nodup) (hn2 : q2.shotsTaken.Nodup) :
    StateInv (GameState.mk .lobby q1 q2 none none) := by
  constructor
  · simp
  · simp
  · intro hx; exact Phase.noConfusion hx
  · intro _ hb
    unfold bothSeated at hb
    rcases hv with h1 | h1
    · exact hb.1 h1
    · exact hb.2 h1
  · intro v hv2
    cases v
    · exact hr1 hv2
    · exact hr2 hv2
  · intro v
    cases v
    · exact hn1
    · exact hn2

theorem inv_mkPlacing (q1 q2 : Player)
    (hr1 : q1.ready = true → q1.socketId ≠ none)
    (hr2 : q2.ready = true → q2.socketId ≠ none)
    (hn1 : q1.shotsTaken.Nodup) (hn2 : q2.shotsTaken.Nodup) :
    StateInv (GameState.mk .placing q1 q2 none none) := by
  constructor
  · simp
  · simp
  · intro hx; exact Phase.noConfusion hx
  · intro hx; exact Phase.noConfusion hx
  · intro v hv2
    cases v
    · exact hr1 hv2
    · exact hr2 hv2
  · intro v
    cases v
    · exact hn1
    · exact hn2

theorem inv_resetGame (s : GameState) : StateInv (resetGame s) := by
  unfold resetGame
  simp only []
  split
  case isTrue hvac =>
    exact inv_mkLobby _ _ hvac (fun hx => Bool.noConfusion hx)
      (fun hx => Bool.noConfusion hx) List.nodup_nil List.nodup_nil
  case isFalse hvac =>
    exact inv_mkPlacing _ _ (fun hx => Bool.noConfusion hx)
      (fun hx => Bool.noConfusion hx) List.nodup_nil List.nodup_nil

theorem inv_reset (s : GameState) (sid : Nat) (h : StateInv s) :
    StateInv (resetStep s sid).1 := by
  unfold resetStep
  split
  · exact inv_resetGame s
  · exact h

theorem inv_disconnect (s : GameState) (sid : Nat) (h : StateInv s) :
    StateInv (disconnectStep s sid).1 := by
  obtain ⟨hti, hwp, hfw, hlv, hrs, hsn⟩ := h
  unfold disconnectStep
  simp only []
  by_cases hc1 : (s.player .one).socketId = some sid <;>
    by_cases hc2 : (s.player .two).socketId = some sid <;>
      simp only [hc1, hc2, if_true, if_false, ite_true, ite_false, if_pos, if_neg,
        eq_self_iff_true]
  · -- both seats held by the leaving socket: both wiped
    have hcond : mkPlayerState.socketId = none ∨ mkPlayerState.socketId = none :=
      Or.inl rfl
    rw [if_pos hcond]
    exact inv_mkLobby _ _ hcond (fun hx => Bool.noConfusion hx)
      (fun hx => Bool.noConfusion hx) List.nodup_nil List.nodup_nil
  · -- seat one wiped
    have hcond : mkPlayerState.socketId = none ∨ (s.player .two).socketId = none :=
      Or.inl rfl
    rw [if_pos hcond]
    exact inv_mkLobby _ _ hcond (fun hx => Bool.noConfusion hx)
      (hrs .two) List.nodup_nil (hsn .two)
  · -- seat two wiped
    have hcond : (s.player .one).socketId = none ∨ mkPlayerState.socketId = none :=
      Or.inr rfl
    rw [if_pos hcond]
    exact inv_mkLobby _ _ hcond (hrs .one)
      (fun hx => Bool.noConfusion hx) (hsn .one) List.nodup_nil
  · -- spectator disconnect: no seat wiped
    split
    · rename_i hvac
      exact inv_mkLobby _ _ hvac (hrs .one) (hrs .two) (hsn .one) (hsn .two)
    · have heq : GameState.mk s.phase (s.player .one) (s.player .two) s.turn s.winner
          = s := rfl
      rw [heq]
      exact ⟨hti, hwp, hfw, hlv, hrs, hsn⟩

theorem inv_join (s : GameState) (sid slot : Nat) (h : StateInv s) :
    StateInv (joinStep s sid slot).1 := by
  unfold joinStep
  split
  · exact h
  · split
    · exact h
    · exact inv_joinBody s sid slot _ h

theorem inv_step (s : GameState) (e : Event) (h : StateInv s) :
    StateInv (stepState s e) := by
  cases e with
  | join sid slot => exact inv_join s sid slot h
  | placeShips sid slot ships => exact inv_place s sid slot ships h
  | ready sid slot coin => exact inv_ready s sid slot coin h
  | fire sid slot r c => exact inv_fire s sid slot r c h
  | chat sid sender text =>
    show StateInv (chatStep s sid sender text).1
    rw [chatStep_state]
    exact h
  | reset sid => exact inv_reset s sid h
  | disconnect sid => exact inv_disconnect s sid h

theorem reach_inv (s : GameState) (h : Reach s) : StateInv s := by
  induction h with
  | init => exact inv_initial
  | next s e _ ih => exact inv_step s e ih

theorem joinStep_phase (s : GameState) (sid slot : Nat) :
    (joinStep s sid slot).1.phase = s.phase
    ∨ (s.phase = .lobby ∧ (joinStep s sid slot).1.phase = .placing) := by
  unfold joinStep
  split
  · left; rfl
  · rename_i sl hsl
    split
    · left; rfl
    · unfold joinBody joinPromote
      split
      · rename_i hcond
        right
        refine ⟨?_, rfl⟩
        rw [← joinSV_phase s sid slot sl]
        exact hcond.1
      · left
        exact joinSV_phase s sid slot sl

theorem readyStep_phase (s : GameState) (sid slot : Nat) (coin : Seat)
    (h : StateInv s) :
    (readyStep s sid slot coin).1.phase = s.phase
    ∨ ((s.phase = .placing ∨ s.phase = .finished)
        ∧ (readyStep s sid slot coin).1.phase = .inProgress) := by
  obtain ⟨hti, hwp, hfw, hlv, hrs, hsn⟩ := h
  unfold readyStep
  split
  · left; rfl
  · rename_i pn hpn
    split
    · left; rfl
    · rename_i hsock
      split
      · left; rfl
      · rename_i hships
        have hseated : (s.player pn).socketId ≠ none := by
          rw [not_not.mp hsock]
          exact Option.some_ne_none sid
        unfold readyBody
        simp only []
        split
        · rename_i hboth
          by_cases hcase : s.phase = .inProgress
          · left
            rw [hcase]
          · right
            refine ⟨?_, rfl⟩
            have hbs : bothSeated s := by
              constructor
              · by_cases h1 : Seat.one = pn
                · rw [h1]; exact hseated
                · have hb1 := hboth.1
                  rw [player_setPlayer_ne _ _ _ _ h1] at hb1
                  exact hrs .one hb1
              · by_cases h2 : Seat.two = pn
                · rw [h2]; exact hseated
                · have hb2 := hboth.2
                  rw [player_setPlayer_ne _ _ _ _ h2] at hb2
                  exact hrs .two hb2
            cases hph : s.phase with
            | lobby => exact absurd hbs (hlv hph)
            | placing => exact Or.inl rfl
            | inProgress => exact absurd hph hcase
            | finished => exact Or.inr rfl
        · left
          exact setPlayer_phase s pn _

theorem fireStep_phase (s : GameState) (sid slot : Nat) (r c : Int) :
    (fireStep s sid slot r c).1.phase = s.phase
    ∨ (s.phase = .inProgress ∧ (fireStep s sid slot r c).1.phase = .finished) := by
  unfold fireStep
  split
  · left; rfl
  · rename_i hph
    split
    · left; rfl
    · rename_i pn hpn
      split
      · left; rfl
      · split
        · left; rfl
        · simp only []
          split
          · left; rfl
          · rcases fireResolve_end s pn (r, c) with ⟨he1, _, _, _⟩ | ⟨he1, _, _, _⟩
            · right
              exact ⟨not_not.mp hph, he1⟩
            · left
              exact he1

theorem resetStep_phase (s : GameState) (sid : Nat) :
    (resetStep s sid).1.phase = s.phase
    ∨ ((resetStep s sid).1.phase = .placing ∨ (resetStep s sid).1.phase = .lobby) := by
  unfold resetStep
  split
  · right
    unfold resetGame
    simp only []
    split
    · right; rfl
    · left; rfl
  · left; rfl

theorem disconnectStep_phase (s : GameState) (sid : Nat) :
    (disconnectStep s sid).1.phase = s.phase
    ∨ (disconnectStep s sid).1.phase = .lobby := by
  unfold disconnectStep
  simp only []
  by_cases hc1 : (s.player .one).socketId = some sid <;>
    by_cases hc2 : (s.player .two).socketId = some sid <;>
      simp only [hc1, hc2, if_true, if_false, ite_true, ite_false]
  · have hcond : mkPlayerState.socketId = none ∨ mkPlayerState.socketId = none :=
      Or.inl rfl
    rw [if_pos hcond]
    right; rfl
  · have hcond : mkPlayerState.socketId = none ∨ (s.player .two).socketId = none :=
      Or.inl rfl
    rw [if_pos hcond]
    right; rfl
  · have hcond : (s.player .one).socketId = none ∨ mkPlayerState.socketId = none :=
      Or.inr rfl
    rw [if_pos hcond]
    right; rfl
  · split
    · right; rfl
    · left; rfl

/-- Claim C1, counterexample: in the reachable finished state `s8`, seat 1
is seated, seat 2's board still holds an unhit carrier cell at (0, 0), yet
the payload sent to seat 1 shows nothing at (0, 0) — the projection stays
fogged after the match ends. -/
theorem c1_counterexample : ¬ c1FullDisclosureAtFinish := by
  intro h
  have h0 := h s8 .one reach_s8 (by decide) (by decide) (0, 0)
    ⟨"carrier", false⟩ (by decide)
  revert h0
  decide

/-- Claim C1 (amended): the board payload never switches to full
disclosure: in every phase, including FINISHED, the opponent part of the
payload sent to a viewer lists exactly the coordinates of the viewer's own
shot history (the fog projection), never the opponent's full board. -/
theorem c1_amended_always_fog (s : GameState) (v : Seat) :
    (boardsPayloadFor s v).oppFog.map Prod.fst = (s.player v).shotsTaken :=
  fogFor_keys s v

/-- Claim C4: while the match is not finished, the opponent part of a
viewer's payload lists exactly the viewer's own shot history, every entry
is tagged hit or miss, and the payload is unchanged under any change of the
opponent's hidden placement that agrees on the viewer's fired coordinates. -/
theorem c4_least_disclosure (s : GameState) (v : Seat)
    (hph : s.phase ≠ .finished) :
    ((fogFor s v).map Prod.fst = (s.player v).shotsTaken
      ∧ ∀ e ∈ fogFor s v, e.2 = "H" ∨ e.2 = "M")
    ∧ ∀ s2 : GameState, s2.player v = s.player v →
        (∀ k ∈ (s.player v).shotsTaken,
          alookup (s2.player v.other).board k = alookup (s.player v.other).board k) →
        boardsPayloadFor s2 v = boardsPayloadFor s v := by
  refine ⟨⟨fogFor_keys s v, ?_⟩, ?_⟩
  · intro e he
    unfold fogFor at he
    obtain ⟨k, _, rfl⟩ := List.mem_map.1 he
    unfold fogCell
    cases alookup (s.player v.other).board k with
    | none => simp
    | some cell => by_cases h : cell.hit <;> simp [h]
  · intro s2 hp hb
    unfold boardsPayloadFor fogFor
    rw [hp]
    have h : ∀ k ∈ (s.player v).shotsTaken,
        fogCell (s2.player v.other).board k = fogCell (s.player v.other).board k := by
      intro k hk
      unfold fogCell
      rw [hb k hk]
    rw [List.map_congr_left h]

/-- Witness for C4 at the initial state. -/
theorem c4_witness :
    initialState.phase ≠ Phase.finished ∧
      (fogFor initialState .one).map Prod.fst = (initialState.player .one).shotsTaken :=
  ⟨by decide, (c4_least_disclosure initialState .one (by decide)).1.1⟩

theorem hitResolve_result (s : GameState) (oppn : Seat) (key : Coord) :
    (hitResolve s oppn key).2.1
      = (if (alookup (s.player oppn).board key).isSome then "hit" else "miss") := by
  simp only [hitResolve]
  split
  · rename_i cell hcell
    rw [hcell]
    split
    · simp
    · split <;> simp
  · rename_i hcell
    rw [hcell]
    simp

theorem fireResolve_result (s : GameState) (pn : Seat) (key : Coord) :
    (fireResolve s pn key).2.1
      = (if (alookup (s.player pn.other).board key).isSome then "hit" else "miss") := by
  show (hitResolve (setPlayer s pn
      { s.player pn with shotsTaken := (s.player pn).shotsTaken ++ [key] })
      pn.other key).2.1 = _
  rw [hitResolve_result, player_setPlayer_ne _ _ _ _ (Seat.other_ne pn)]

theorem hitResolve_sunk (s : GameState) (oppn : Seat) (key : Coord) :
    (hitResolve s oppn key).2.2 ≠ none ↔
      ∃ cell sh, alookup (s.player oppn).board key = some cell
        ∧ cell.hit = false
        ∧ slookup (s.player oppn).ships cell.shipId = some sh
        ∧ (insertShot sh.hits key).length = sh.size := by
  simp only [hitResolve]
  split
  · rename_i cell hcell
    split
    · rename_i hhit
      constructor
      · intro hne; exact absurd rfl hne
      · rintro ⟨cell2, sh, hc2, hf, _, _⟩
        rw [hcell] at hc2
        injection hc2 with he
        subst he
        rw [hhit] at hf
        cases hf
    · rename_i hhit
      split
      · rename_i sh hsh
        constructor
        · intro hne
          refine ⟨cell, sh, hcell, Bool.eq_false_iff.mpr hhit, hsh, ?_⟩
          by_cases hlen : (insertShot sh.hits key).length = sh.size
          · exact hlen
          · rw [if_neg hlen] at hne
            exact absurd rfl hne
        · rintro ⟨cell2, sh2, hc2, hf2, hsh2, hlen2⟩
          rw [hcell] at hc2
          injection hc2 with he
          subst he
          rw [hsh] at hsh2
          injection hsh2 with he2
          subst he2
          show (if (insertShot sh.hits key).length = sh.size
              then some sh.name else none) ≠ none
          rw [if_pos hlen2]
          exact Option.some_ne_none _
      · rename_i hsh
        constructor
        · intro hne; exact absurd rfl hne
        · rintro ⟨cell2, sh2, hc2, _, hsh2, _⟩
          rw [hcell] at hc2
          injection hc2 with he
          subst he
          rw [hsh] at hsh2
          cases hsh2
  · rename_i hcell
    constructor
    · intro hne; exact absurd rfl hne
    · rintro ⟨cell2, _, hc2, _, _, _⟩
      rw [hcell] at hc2
      cases hc2

theorem fireResolve_sunk (s : GameState) (pn : Seat) (key : Coord) :
    (fireResolve s pn key).2.2 ≠ none ↔
      ∃ cell sh, alookup (s.player pn.other).board key = some cell
        ∧ cell.hit = false
        ∧ slookup (s.player pn.other).ships cell.shipId = some sh
        ∧ (insertShot sh.hits key).length = sh.size := by
  show (hitResolve (setPlayer s pn
      { s.player pn with shotsTaken := (s.player pn).shotsTaken ++ [key] })
      pn.other key).2.2 ≠ none ↔ _
  rw [hitResolve_sunk, player_setPlayer_ne _ _ _ _ (Seat.other_ne pn)]

theorem fireStep_accepted (s : GameState) (sid slot : Nat) (r c : Int) (pn : Seat)
    (hpn : decodeSeat slot = some pn) (hph : s.phase = .inProgress)
    (hsock : (s.player pn).socketId = some sid) (hturn : s.turn = some pn)
    (hmem : (r, c) ∉ (s.player pn).shotsTaken) :
    (fireStep s sid slot r c).1 = (fireResolve s pn (r, c)).1 := by
  unfold fireStep
  split
  · rename_i hph2
    exact absurd hph hph2
  · split
    · rename_i hd
      rw [hd] at hpn
      cases hpn
    · rename_i pn2 hd
      rw [hd] at hpn
      injection hpn with he
      subst he
      split
      · rename_i hs2
        exact absurd hsock hs2
      · split
        · rename_i ht2
          exact absurd hturn ht2
        · simp only []
          split
          · rename_i hm2
            exact absurd hm2 hmem
          · rfl

theorem setPlacement_snd (s : GameState) (pn : Seat) (payload : List ShipPayload) :
    (setPlacementForPlayer s pn payload).2 = validatePlacement payload := by
  unfold setPlacementForPlayer
  cases validatePlacement payload <;> rfl

theorem setPlacement_fst_ok (s : GameState) (pn : Seat)
    (payload : List ShipPayload) (hval : validatePlacement payload = none) :
    (setPlacementForPlayer s pn payload).1
      = setPlayer s pn (placedPlayer (s.player pn) payload) := by
  unfold setPlacementForPlayer placedPlayer
  rw [hval]

/-- Claim C2, counterexample: in the reachable finished state `s8`
(reached by a winning shot) the turn still holds the shooter's seat, so
turn is non-null while the phase is FINISHED, not IN_PROGRESS — the
winning shot does not clear the turn. -/
theorem c2_counterexample : ¬ c2TurnWinnerIff := by
  intro h
  have h8 := (h s8 reach_s8).1
  have h1 : s8.turn ≠ none := by decide
  have h2 : s8.phase = .inProgress := h8.mp h1
  revert h2
  decide

/-- Claim C2 (amended): in every reachable state, turn is non-null iff the
phase is IN_PROGRESS or FINISHED; winner is non-null whenever the phase is
FINISHED, and a non-null winner implies the phase is IN_PROGRESS or
FINISHED.  When an accepted shot sinks the opponent's entire fleet the
phase becomes FINISHED and the winner becomes the shooter, but the turn is
not cleared: it keeps the shooter's seat. -/
theorem c2_amended (s : GameState) (hre : Reach s) :
    ((s.turn ≠ none ↔ (s.phase = .inProgress ∨ s.phase = .finished))
      ∧ (s.phase = .finished → s.winner ≠ none)
      ∧ (s.winner ≠ none → (s.phase = .inProgress ∨ s.phase = .finished)))
    ∧ ∀ (pn : Seat) (key : Coord),
        s.phase = .inProgress → s.turn = some pn →
        key ∉ (s.player pn).shotsTaken →
        allShipsSunk ((fireResolve s pn key).1.player pn.other) = true →
        (fireResolve s pn key).1.phase = .finished
          ∧ (fireResolve s pn key).1.winner = some pn
          ∧ (fireResolve s pn key).1.turn = some pn := by
  obtain ⟨hti, hwp, hfw, _, _, _⟩ := reach_inv s hre
  refine ⟨⟨hti, hfw, hwp⟩, ?_⟩
  intro pn key hph hturn hmem hsunk
  rcases fireResolve_end s pn key with ⟨he1, he2, he3, _⟩ | ⟨_, _, _, hns⟩
  · exact ⟨he1, he2, he3.trans hturn⟩
  · exact Bool.noConfusion (hsunk.symm.trans hns)

/-- Witness for C2 (amended) at the reachable state `s7`, where seat 2's
shot at open water sinks seat 1's emptied fleet. -/
theorem c2_witness :
    (s7.turn ≠ none ↔ (s7.phase = .inProgress ∨ s7.phase = .finished))
    ∧ ((fireResolve s7 .two (9, 9)).1.phase = .finished
        ∧ (fireResolve s7 .two (9, 9)).1.winner = some .two
        ∧ (fireResolve s7 .two (9, 9)).1.turn = some .two) :=
  ⟨(c2_amended s7 reach_s7).1.1,
   (c2_amended s7 reach_s7).2 .two (9, 9) (by decide) (by decide)
     (by decide) (by decide)⟩

/-- Claim C3, counterexample: in the reachable in-progress state `s6`, a
reset from a seated connection moves the phase directly to PLACING — an
IN_PROGRESS → PLACING transition outside the claimed list. -/
theorem c3_counterexample : ¬ c3OnlyListedTransitions := by
  intro h
  have h6 := h s6 (.reset 1) reach_s6
  revert h6
  decide

/-- Claim C3 (amended): for every reachable state and inbound event, the
phase either stays put or takes one of: LOBBY → PLACING (join),
PLACING → IN_PROGRESS or FINISHED → IN_PROGRESS (ready, which lacks a
phase guard), IN_PROGRESS → FINISHED (fire), any → PLACING or any → LOBBY
(reset), any → LOBBY (disconnect). -/
theorem c3_amended (s : GameState) (e : Event) (hre : Reach s) :
    (stepState s e).phase = s.phase ∨ allowedTransition s (stepState s e) e := by
  cases e with
  | join sid slot =>
    rcases joinStep_phase s sid slot with h | h
    · exact Or.inl h
    · exact Or.inr h
  | placeShips sid slot ships =>
    exact Or.inl (placeStep_pres s sid slot ships).1
  | ready sid slot coin =>
    rcases readyStep_phase s sid slot coin (reach_inv s hre) with h | h
    · exact Or.inl h
    · exact Or.inr h
  | fire sid slot r c =>
    rcases fireStep_phase s sid slot r c with h | h
    · exact Or.inl h
    · exact Or.inr h
  | chat sid sender text =>
    left
    exact congrArg GameState.phase (chatStep_state s sid sender text)
  | reset sid =>
    rcases resetStep_phase s sid with h | h
    · exact Or.inl h
    · exact Or.inr h
  | disconnect sid =>
    rcases disconnectStep_phase s sid with h | h
    · exact Or.inl h
    · exact Or.inr h

/-- Witness for C3 (amended): the first join promotes the initial lobby
to PLACING. -/
theorem c3_witness :
    (stepState initialState (.join 1 1)).phase = initialState.phase
    ∨ allowedTransition initialState (stepState initialState (.join 1 1))
        (.join 1 1) :=
  c3_amended initialState (.join 1 1) Reach.init

/-- Claim C5: a fire event mutates the state only when the phase is
IN_PROGRESS, the connection owns the claimed seat, it is that seat's turn
and the coordinate is new to the shooter's history; a repeat fire leaves
the state unchanged; and reachable shot histories never hold duplicates. -/
theorem c5_fire_guards (s : GameState) (hre : Reach s) :
    (∀ v : Seat, (s.player v).shotsTaken.Nodup)
    ∧ (∀ (sid slot : Nat) (r c : Int),
        (fireStep s sid slot r c).1 ≠ s →
          s.phase = .inProgress ∧
          ∃ pn : Seat, decodeSeat slot = some pn ∧
            (s.player pn).socketId = some sid ∧
            s.turn = some pn ∧ (r, c) ∉ (s.player pn).shotsTaken)
    ∧ (∀ (sid slot : Nat) (r c : Int) (pn : Seat),
        decodeSeat slot = some pn → (r, c) ∈ (s.player pn).shotsTaken →
        (fireStep s sid slot r c).1 = s) := by
  refine ⟨(reach_inv s hre).shots_nodup, ?_, ?_⟩
  · intro sid slot r c hne
    unfold fireStep at hne
    revert hne
    split
    · intro hne; exact absurd rfl hne
    · rename_i hph
      split
      · intro hne; exact absurd rfl hne
      · rename_i pn hpn
        split
        · intro hne; exact absurd rfl hne
        · rename_i hsock
          split
          · intro hne; exact absurd rfl hne
          · rename_i hturn
            simp only []
            split
            · intro hne; exact absurd rfl hne
            · rename_i hmem
              intro _
              exact ⟨not_not.mp hph, pn, hpn,
                not_not.mp hsock, not_not.mp hturn, hmem⟩
  · intro sid slot r c pn hpn hmem
    unfold fireStep
    split
    · rfl
    · split
      · rfl
      · rename_i pn2 hd
        split
        · rfl
        · split
          · rfl
          · simp only []
            split
            · rfl
            · rename_i hmem2
              rw [hd] at hpn
              injection hpn with he
              subst he
              exact absurd hmem hmem2

/-- Claim C6: for every accepted shot, the handler runs the accepted-shot
body; the coordinate is appended to the shooter's shot history; the result
is hit iff the opponent's board holds a ship cell at that coordinate
(already-hit cells included) and miss otherwise; a sunk ship name is
reported exactly when this shot fills some ship's hit set to its declared
size; and a shot that does not end the match flips the turn to the
opposing seat. -/
theorem c6_shot_resolution (s : GameState) (sid slot : Nat) (r c : Int)
    (pn : Seat) (hpn : decodeSeat slot = some pn) (hph : s.phase = .inProgress)
    (hsock : (s.player pn).socketId = some sid) (hturn : s.turn = some pn)
    (hmem : (r, c) ∉ (s.player pn).shotsTaken) :
    (fireStep s sid slot r c).1 = (fireResolve s pn (r, c)).1
    ∧ ((fireResolve s pn (r, c)).1.player pn).shotsTaken
        = (s.player pn).shotsTaken ++ [(r, c)]
    ∧ (fireResolve s pn (r, c)).2.1
        = (if (alookup (s.player pn.other).board (r, c)).isSome
           then "hit" else "miss")
    ∧ ((fireResolve s pn (r, c)).2.2 ≠ none ↔
        ∃ cell sh, alookup (s.player pn.other).board (r, c) = some cell
          ∧ cell.hit = false
          ∧ slookup (s.player pn.other).ships cell.shipId = some sh
          ∧ (insertShot sh.hits (r, c)).length = sh.size)
    ∧ (allShipsSunk ((fireResolve s pn (r, c)).1.player pn.other) = false →
        (fireResolve s pn (r, c)).1.turn = some pn.other) := by
  refine ⟨fireStep_accepted s sid slot r c pn hpn hph hsock hturn hmem,
    ?_, fireResolve_result s pn (r, c), fireResolve_sunk s pn (r, c), ?_⟩
  · have h := (fireResolve_player s pn (r, c) pn).2.2
    rw [if_pos rfl] at h
    exact h
  · intro hns
    rcases fireResolve_end s pn (r, c) with ⟨_, _, _, hs⟩ | ⟨_, _, ht, _⟩
    · rw [hns] at hs
      cases hs
    · exact ht

/-- Witness for C6 at the reachable in-progress state `s6`: seat 2 fires at
(0,0) and hits seat 1's carrier. -/
theorem c6_witness :
    ((fireResolve s6 .two (0, 0)).1.player .two).shotsTaken
        = (s6.player .two).shotsTaken ++ [(0, 0)]
    ∧ (fireResolve s6 .two (0, 0)).2.1 = "hit" := by
  have h := c6_shot_resolution s6 2 2 0 0 .two (by decide) (by decide)
    (by decide) (by decide) (by decide)
  refine ⟨h.2.1, ?_⟩
  rw [h.2.2.1]
  decide

/-- Witness for C5 at the reachable in-progress state `s6`: firing twice at
the same cell, the second fire is rejected with no state change. -/
theorem c5_witness :
    ((s6.player .one).shotsTaken.Nodup ∧ (s6.player .two).shotsTaken.Nodup)
    ∧ (fireStep (stepState s6 (.fire 2 2 0 0)) 2 2 0 0).1
        = stepState s6 (.fire 2 2 0 0) := by
  constructor
  · exact ⟨((c5_fire_guards s6 reach_s6).1 .one),
      ((c5_fire_guards s6 reach_s6).1 .two)⟩
  · exact (c5_fire_guards (stepState s6 (.fire 2 2 0 0))
      (Reach.next s6 (.fire 2 2 0 0) reach_s6)).2.2 2 2 0 0 .two
      (by decide) (by decide)

theorem reach_sJoined : Reach sJoined :=
  reach_runEvents [.join 1 1, .join 2 2]

/-- Claim C8: an accepted placeShips submission wholly replaces the seat's
board and fleet and clears its readiness, leaving the other seat and the
scalar state untouched; a rejected submission changes nothing and sends the
reason only to the submitter. -/
theorem c8_placement_replace (s : GameState) (sid slot : Nat)
    (payload : List ShipPayload) (pn : Seat)
    (hpn : decodeSeat slot = some pn)
    (hsock : (s.player pn).socketId = some sid)
    (hphase : ¬(s.phase ≠ .placing ∧ s.phase ≠ .lobby)) :
    (validatePlacement payload = none →
      ((placeShipsStep s sid slot payload).1.player pn).board = buildBoard payload
      ∧ ((placeShipsStep s sid slot payload).1.player pn).ships = buildShips payload
      ∧ ((placeShipsStep s sid slot payload).1.player pn).ready = false
      ∧ (placeShipsStep s sid slot payload).1.player pn.other = s.player pn.other
      ∧ (placeShipsStep s sid slot payload).1.phase = s.phase
      ∧ (placeShipsStep s sid slot payload).1.turn = s.turn
      ∧ (placeShipsStep s sid slot payload).1.winner = s.winner)
    ∧ (∀ msg, validatePlacement payload = some msg →
        placeShipsStep s sid slot payload
          = (s, [Emit.toSid sid (.notice "error" msg)])) := by
  constructor
  · intro hval
    have hsp : setPlacementForPlayer s pn payload
        = (setPlayer s pn (placedPlayer (s.player pn) payload), none) := by
      unfold setPlacementForPlayer placedPlayer
      rw [hval]
    have hstep : (placeShipsStep s sid slot payload).1
        = setPlayer (setPlayer s pn (placedPlayer (s.player pn) payload)) pn
            { (setPlayer s pn (placedPlayer (s.player pn) payload)).player pn
              with ready := false } := by
      unfold placeShipsStep
      simp only [hpn]
      rw [if_neg (not_not_intro hsock), if_neg hphase, hsp]
    rw [hstep]
    refine ⟨?_, ?_, ?_, ?_, ?_, ?_, ?_⟩ <;>
      simp [player_setPlayer_same,
        player_setPlayer_ne _ _ _ _ (Seat.other_ne pn),
        setPlayer_phase, setPlayer_turn, setPlayer_winner, placedPlayer]
  · intro msg hval
    have hsp : setPlacementForPlayer s pn payload = (s, some msg) := by
      unfold setPlacementForPlayer
      rw [hval]
    unfold placeShipsStep
    simp only [hpn]
    rw [if_neg (not_not_intro hsock), if_neg hphase, hsp]

/-- Witness for C8 at the freshly joined state: a valid fleet is installed
for seat 1, and an empty submission is rejected with a missing-ship notice
and no state change. -/
theorem c8_witness :
    (((placeShipsStep sJoined 1 1 fleetP).1.player .one).board = buildBoard fleetP
      ∧ ((placeShipsStep sJoined 1 1 fleetP).1.player .one).ready = false)
    ∧ placeShipsStep sJoined 1 1 ([] : List ShipPayload)
        = (sJoined, [Emit.toSid 1 (.notice "error" "Missing ship: carrier")]) := by
  have hok := (c8_placement_replace sJoined 1 1 fleetP .one (by decide) (by decide)
    (by decide)).1 (by decide)
  have hbad := (c8_placement_replace sJoined 1 1 ([] : List ShipPayload) .one
    (by decide) (by decide) (by decide)).2 "Missing ship: carrier" (by decide)
  exact ⟨⟨hok.1, hok.2.2.1⟩, hbad⟩

/-- Claim C9, counterexample: firing in the initial LOBBY state is a phase
error, yet the handler returns silently with no emission at all. -/
theorem c9_counterexample : ¬ c9AllRejectionsNoticed := by
  intro h
  rcases h initialState 1 1 0 0 Reach.init (by decide) with ⟨kind, text, hmem⟩
  have hempty : (fireStep initialState 1 1 0 0).2 = [] := by decide
  rw [hempty] at hmem
  cases hmem

/-- Claim C9 (amended): no rejected action mutates state or broadcasts,
but only some rejections produce a unicast notice: join to an occupied
seat, placement validation failure, ready without a complete fleet, and
repeat fire.  Authorization failures on placeShips, ready and fire, and
phase or turn errors on fire, are silently dropped with no notice. -/
theorem c9_amended (s : GameState) (sid slot : Nat) (r c : Int)
    (payload : List ShipPayload) (coin : Seat) :
    (s.phase ≠ .inProgress → fireStep s sid slot r c = (s, []))
    ∧ (∀ pn, decodeSeat slot = some pn → (s.player pn).socketId ≠ some sid →
        fireStep s sid slot r c = (s, []))
    ∧ (∀ pn, decodeSeat slot = some pn → (s.player pn).socketId = some sid →
        s.turn ≠ some pn → fireStep s sid slot r c = (s, []))
    ∧ (∀ pn, decodeSeat slot = some pn → s.phase = .inProgress →
        (s.player pn).socketId = some sid → s.turn = some pn →
        (r, c) ∈ (s.player pn).shotsTaken →
        fireStep s sid slot r c
          = (s, [Emit.toSid sid (.notice "error" "You already fired there.")]))
    ∧ (∀ sl, decodeSeat slot = some sl → (s.player sl).socketId ≠ none →
        (s.player sl).socketId ≠ some sid →
        joinStep s sid slot
          = (s, [Emit.toSid sid (.notice "error" "That slot is already taken.")]))
    ∧ (∀ pn, decodeSeat slot = some pn → (s.player pn).socketId ≠ some sid →
        placeShipsStep s sid slot payload = (s, []))
    ∧ (∀ pn msg, decodeSeat slot = some pn →
        (s.player pn).socketId = some sid →
        ¬(s.phase ≠ .placing ∧ s.phase ≠ .lobby) →
        validatePlacement payload = some msg →
        placeShipsStep s sid slot payload
          = (s, [Emit.toSid sid (.notice "error" msg)]))
    ∧ (∀ pn, decodeSeat slot = some pn → (s.player pn).socketId ≠ some sid →
        readyStep s sid slot coin = (s, []))
    ∧ (∀ pn, decodeSeat slot = some pn → (s.player pn).socketId = some sid →
        (s.player pn).ships.length ≠ SHIP_DEFS.length →
        readyStep s sid slot coin
          = (s, [Emit.toSid sid (.notice "error" "Place all ships first.")])) := by
  refine ⟨?_, ?_, ?_, ?_, ?_, ?_, ?_, ?_, ?_⟩
  · intro hph
    unfold fireStep
    rw [if_pos hph]
  · intro pn hpn hsock
    unfold fireStep
    by_cases hph : s.phase ≠ .inProgress
    · rw [if_pos hph]
    · rw [if_neg hph]
      simp only [hpn]
      rw [if_pos hsock]
  · intro pn hpn hsock hturn
    unfold fireStep
    by_cases hph : s.phase ≠ .inProgress
    · rw [if_pos hph]
    · rw [if_neg hph]
      simp only [hpn]
      rw [if_neg (not_not_intro hsock), if_pos hturn]
  · intro pn hpn hph hsock hturn hmem
    unfold fireStep
    rw [if_neg (not_not_intro hph)]
    simp only [hpn]
    rw [if_neg (not_not_intro hsock), if_neg (not_not_intro hturn)]
    rw [if_pos hmem]
  · intro sl hsl hocc hne
    unfold joinStep
    simp only [hsl]
    rw [if_pos ⟨hocc, hne⟩]
  · intro pn hpn hsock
    unfold placeShipsStep
    simp only [hpn]
    rw [if_pos hsock]
  · intro pn msg hpn hsock hphase hval
    have hsp : setPlacementForPlayer s pn payload = (s, some msg) := by
      unfold setPlacementForPlayer
      rw [hval]
    unfold placeShipsStep
    simp only [hpn]
    rw [if_neg (not_not_intro hsock), if_neg hphase, hsp]
  · intro pn hpn hsock
    unfold readyStep
    simp only [hpn]
    rw [if_pos hsock]
  · intro pn hpn hsock hships
    unfold readyStep
    simp only [hpn]
    rw [if_neg (not_not_intro hsock), if_pos hships]

/-- Witness for C9: a fire in the lobby is silently dropped, and a ready
without a fleet draws a unicast notice. -/
theorem c9_witness :
    fireStep initialState 1 1 0 0 = (initialState, [])
    ∧ readyStep sJoined 1 1 .one
        = (sJoined, [Emit.toSid 1 (.notice "error" "Place all ships first.")]) :=
  ⟨(c9_amended initialState 1 1 0 0 [] .one).1 (by decide),
   (c9_amended sJoined 1 1 0 0 [] .one).2.2.2.2.2.2.2.2 .one
     (by decide) (by decide) (by decide)⟩

/-- Claim C10, counterexample: in the reachable state `sPlaced` (seat 1 has
placed a fleet), seat 2's disconnect wipes seat 2 only; seat 1's board
survives intact, so the disconnect does not discard all boards. -/
theorem c10_counterexample : ¬ c10DisconnectDiscards := by
  intro h
  have hb := (h sPlaced 2 reach_sPlaced .one).1
  revert hb
  decide

/-- Claim C10 (amended): a reset honored from a seated connection keeps
both seats' bindings and names and discards boards, fleets, shot
histories, readiness, turn and winner, with the phase becoming PLACING if
both seats are occupied and LOBBY otherwise.  A disconnect of a seat's
connection wipes only that seat (binding, name, board, fleet, shots,
readiness), leaves the other seat wholly unchanged — its board, fleet,
shot history and readiness included — and moves to LOBBY clearing turn
and winner.  A disconnect of a connection holding no seat leaves both
seats unchanged; it only falls back to LOBBY (clearing turn and winner)
when some seat is already vacant. -/
theorem c10_amended (s : GameState) (sid : Nat) :
    (((s.player .one).socketId = some sid ∨ (s.player .two).socketId = some sid) →
      (∀ v : Seat,
        ((resetStep s sid).1.player v).socketId = (s.player v).socketId
        ∧ ((resetStep s sid).1.player v).name = (s.player v).name
        ∧ ((resetStep s sid).1.player v).ready = false
        ∧ ((resetStep s sid).1.player v).board = []
        ∧ ((resetStep s sid).1.player v).ships = []
        ∧ ((resetStep s sid).1.player v).shotsTaken = [])
      ∧ (resetStep s sid).1.turn = none
      ∧ (resetStep s sid).1.winner = none
      ∧ ((resetStep s sid).1.phase =
          if (s.player .one).socketId = none ∨ (s.player .two).socketId = none
          then Phase.lobby else Phase.placing))
    ∧ (∀ v : Seat, (s.player v).socketId = some sid →
        (s.player v.other).socketId ≠ some sid →
        (disconnectStep s sid).1.player v = mkPlayerState
        ∧ (disconnectStep s sid).1.player v.other = s.player v.other
        ∧ (disconnectStep s sid).1.phase = .lobby
        ∧ (disconnectStep s sid).1.turn = none
        ∧ (disconnectStep s sid).1.winner = none)
    ∧ ((s.player .one).socketId ≠ some sid → (s.player .two).socketId ≠ some sid →
        (∀ v : Seat, (disconnectStep s sid).1.player v = s.player v)
        ∧ ((disconnectStep s sid).1.phase =
            if (s.player .one).socketId = none ∨ (s.player .two).socketId = none
            then Phase.lobby else s.phase)
        ∧ ((disconnectStep s sid).1.turn =
            if (s.player .one).socketId = none ∨ (s.player .two).socketId = none
            then none else s.turn)) := by
  refine ⟨?_, ?_, ?_⟩
  · intro hseated
    unfold resetStep
    rw [if_pos hseated]
    unfold resetGame
    simp only []
    split
    · refine ⟨?_, rfl, rfl, rfl⟩
      intro v
      cases v <;> exact ⟨rfl, rfl, rfl, rfl, rfl, rfl⟩
    · refine ⟨?_, rfl, rfl, rfl⟩
      intro v
      cases v <;> exact ⟨rfl, rfl, rfl, rfl, rfl, rfl⟩
  · intro v hv hother
    cases v
    · have hother2 : (s.player .two).socketId ≠ some sid := hother
      unfold disconnectStep
      simp only []
      rw [if_pos hv, if_neg hother2]
      have hcond : mkPlayerState.socketId = none ∨ (s.player .two).socketId = none :=
        Or.inl rfl
      rw [if_pos hcond]
      exact ⟨rfl, rfl, rfl, rfl, rfl⟩
    · have hother2 : (s.player .one).socketId ≠ some sid := hother
      unfold disconnectStep
      simp only []
      rw [if_pos hv, if_neg hother2]
      have hcond : (s.player .one).socketId = none ∨ mkPlayerState.socketId = none :=
        Or.inr rfl
      rw [if_pos hcond]
      exact ⟨rfl, rfl, rfl, rfl, rfl⟩
  · intro h1 h2
    unfold disconnectStep
    simp only []
    rw [if_neg h1, if_neg h2]
    split
    · refine ⟨?_, rfl, rfl⟩
      intro v; cases v <;> rfl
    · refine ⟨?_, rfl, rfl⟩
      intro v; cases v <;> rfl

/-- Witness for C10 at the reachable state `sPlaced`: seat 1's reset keeps
both names and wipes the boards; seat 2's disconnect leaves seat 1's board
untouched and aborts to LOBBY. -/
theorem c10_witness :
    (((resetStep sPlaced 1).1.player .one).socketId
        = (sPlaced.player .one).socketId
      ∧ ((resetStep sPlaced 1).1.player .one).board = [])
    ∧ ((disconnectStep sPlaced 2).1.player (Seat.other .two)
        = sPlaced.player (Seat.other .two)
      ∧ (disconnectStep sPlaced 2).1.phase = .lobby) := by
  have hr := (c10_amended sPlaced 1).1 (Or.inl (by decide))
  have hd := (c10_amended sPlaced 2).2.1 .two (by decide) (by decide)
  exact ⟨⟨(hr.1 .one).1, (hr.1 .one).2.2.2.1⟩, hd.2.1, hd.2.2.1⟩

theorem cellsCheck_ok_iff (cells : List Coord) : ∀ (occ occ2 : List Coord),
    cellsCheck occ cells = .ok occ2 ↔
      ((∀ x ∈ cells, inBounds x = true) ∧ cells.Nodup
        ∧ (∀ x ∈ cells, x ∉ occ) ∧ occ2 = occ ++ cells) := by
  induction cells with
  | nil =>
    intro occ occ2
    constructor
    · intro h
      injection h with h2
      refine ⟨?_, List.nodup_nil, ?_, ?_⟩
      · intro x hx; cases hx
      · intro x hx; cases hx
      · rw [← h2]; simp
    · rintro ⟨_, _, _, h4⟩
      rw [h4]
      simp [cellsCheck]
  | cons c t ih =>
    intro occ occ2
    unfold cellsCheck
    by_cases hb : inBounds c
    · rw [if_neg (not_not_intro hb)]
      by_cases hm : c ∈ occ
      · rw [if_pos hm]
        constructor
        · intro h; exact Except.noConfusion h
        · rintro ⟨_, _, h3, _⟩
          exact absurd hm (h3 c (List.mem_cons_self c t))
      · rw [if_neg hm]
        rw [ih (occ ++ [c]) occ2]
        constructor
        · rintro ⟨h1, h2, h3, h4⟩
          refine ⟨?_, ?_, ?_, ?_⟩
          · intro x hx
            rcases List.mem_cons.mp hx with rfl | hx2
            · exact hb
            · exact h1 x hx2
          · rw [List.nodup_cons]
            refine ⟨?_, h2⟩
            intro hct
            have h5 := h3 c hct
            simp at h5
          · intro x hx
            rcases List.mem_cons.mp hx with rfl | hx2
            · exact hm
            · intro hxo
              exact h3 x hx2 (List.mem_append_left _ hxo)
          · rw [h4]; simp
        · rintro ⟨h1, h2, h3, h4⟩
          refine ⟨?_, ?_, ?_, ?_⟩
          · intro x hx
            exact h1 x (List.mem_cons_of_mem c hx)
          · exact (List.nodup_cons.mp h2).2
          · intro x hx hxo
            rcases List.mem_append.mp hxo with hxo1 | hxo2
            · exact h3 x (List.mem_cons_of_mem c hx) hxo1
            · rw [List.mem_singleton] at hxo2
              subst hxo2
              exact (List.nodup_cons.mp h2).1 hx
          · rw [h4]; simp
    · rw [if_pos hb]
      constructor
      · intro h; exact Except.noConfusion h
      · rintro ⟨h1, _, _, _⟩
        exact absurd (h1 c (List.mem_cons_self c t)) hb

theorem validateLoop_ok_iff (rest : List ShipPayload) :
    ∀ (seen : List String) (occ : List Coord),
    (∃ seen2, validateLoop seen occ rest = .ok seen2) ↔
      ((∀ sh ∈ rest, specShipOk sh)
        ∧ (shipKeys rest).Nodup
        ∧ (∀ k ∈ shipKeys rest, k ∉ seen)
        ∧ (allCells rest).Nodup
        ∧ (∀ x ∈ allCells rest, x ∉ occ)) := by
  induction rest with
  | nil =>
    intro seen occ
    constructor
    · intro _
      refine ⟨?_, ?_, ?_, ?_, ?_⟩ <;>
        first
          | exact List.nodup_nil
          | (intro x hx; cases hx)
    · intro _
      exact ⟨seen, rfl⟩
  | cons sh t ih =>
    intro seen occ
    unfold validateLoop
    cases hreq : requiredSize SHIP_DEFS sh.key with
    | none =>
      constructor
      · rintro ⟨seen2, h⟩
        exact Except.noConfusion h
      · rintro ⟨h1, _⟩
        have h2 := (h1 sh (List.mem_cons_self _ _)).1
        rw [hreq] at h2
        cases h2
    | some sz =>
      simp only []
      by_cases hdup : sh.key ∈ seen
      · rw [if_pos hdup]
        constructor
        · rintro ⟨seen2, h⟩
          exact Except.noConfusion h
        · rintro ⟨_, _, h3, _⟩
          refine absurd hdup (h3 sh.key ?_)
          show sh.key ∈ (sh :: t).map (fun x => x.key)
          simp
      · rw [if_neg hdup]
        by_cases hlen : sh.cells.length ≠ sz
        · rw [if_pos hlen]
          constructor
          · rintro ⟨seen2, h⟩
            exact Except.noConfusion h
          · rintro ⟨h1, _⟩
            have h2 := (h1 sh (List.mem_cons_self _ _)).1
            rw [hreq] at h2
            injection h2 with h3
            exact (hlen h3.symm).elim
        · rw [if_neg hlen]
          by_cases hstraight : ¬ rowsAligned sh.cells ∧ ¬ colsAligned sh.cells
          · rw [if_pos hstraight]
            constructor
            · rintro ⟨seen2, h⟩
              exact Except.noConfusion h
            · rintro ⟨h1, _⟩
              rcases (h1 sh (List.mem_cons_self _ _)).2.1 with h2 | h2
              · exact (hstraight.1 h2).elim
              · exact (hstraight.2 h2).elim
          · rw [if_neg hstraight]
            cases hcc : cellsCheck occ sh.cells with
            | error m =>
              constructor
              · rintro ⟨seen2, h⟩
                exact Except.noConfusion h
              · rintro ⟨h1, _, _, h4, h5⟩
                have hok : cellsCheck occ sh.cells = .ok (occ ++ sh.cells) := by
                  rw [cellsCheck_ok_iff]
                  refine ⟨(h1 sh (List.mem_cons_self _ _)).2.2.1, ?_, ?_, rfl⟩
                  · have h6 : (sh.cells ++ allCells t).Nodup := h4
                    exact (List.nodup_append.mp h6).1
                  · intro x hx
                    refine h5 x ?_
                    show x ∈ sh.cells ++ allCells t
                    exact List.mem_append_left _ hx
                rw [hcc] at hok
                exact Except.noConfusion hok
            | ok occ2 =>
              simp only []
              obtain ⟨hbnd, hnd, hdisj, hocc2⟩ := (cellsCheck_ok_iff sh.cells occ occ2).mp hcc
              by_cases hcont : contiguousOk (rowsAligned sh.cells) sh.cells
              · rw [if_pos hcont]
                rw [ih (sh.key :: seen) occ2]
                constructor
                · rintro ⟨h1, h2, h3, h4, h5⟩
                  refine ⟨?_, ?_, ?_, ?_, ?_⟩
                  · intro sh2 hsh2
                    rcases List.mem_cons.mp hsh2 with rfl | hsh3
                    · refine ⟨?_, ?_, hbnd, hcont⟩
                      · rw [hreq, not_not.mp hlen]
                      · rcases not_and_or.mp hstraight with h6 | h6
                        · exact Or.inl (not_not.mp h6)
                        · exact Or.inr (not_not.mp h6)
                    · exact h1 sh2 hsh3
                  · show (sh.key :: shipKeys t).Nodup
                    rw [List.nodup_cons]
                    constructor
                    · intro hmem
                      exact absurd (List.mem_cons_self sh.key seen) (h3 sh.key hmem)
                    · exact h2
                  · intro k hk
                    show k ∉ seen
                    rcases List.mem_cons.mp hk with rfl | hk2
                    · exact hdup
                    · intro hks
                      exact h3 k hk2 (List.mem_cons_of_mem _ hks)
                  · show (sh.cells ++ allCells t).Nodup
                    rw [List.nodup_append]
                    refine ⟨hnd, h4, ?_⟩
                    intro x hx hxt
                    have h6 := h5 x hxt
                    rw [hocc2] at h6
                    exact h6 (List.mem_append_right _ hx)
                  · intro x hx
                    rcases List.mem_append.mp hx with hx1 | hx2
                    · exact hdisj x hx1
                    · have h6 := h5 x hx2
                      rw [hocc2] at h6
                      intro hxo
                      exact h6 (List.mem_append_left _ hxo)
                · rintro ⟨h1, h2, h3, h4, h5⟩
                  have h2c : (sh.key :: shipKeys t).Nodup := h2
                  have h4c : (sh.cells ++ allCells t).Nodup := h4
                  refine ⟨?_, ?_, ?_, ?_, ?_⟩
                  · intro sh2 hsh2
                    exact h1 sh2 (List.mem_cons_of_mem sh hsh2)
                  · exact (List.nodup_cons.mp h2c).2
                  · intro k hk hkmem
                    rcases List.mem_cons.mp hkmem with rfl | hk2
                    · exact (List.nodup_cons.mp h2c).1 hk
                    · refine h3 k ?_ hk2
                      show k ∈ (sh :: t).map (fun x => x.key)
                      exact List.mem_cons_of_mem _ hk
                  · exact (List.nodup_append.mp h4c).2.1
                  · intro x hx
                    rw [hocc2]
                    intro hxo
                    rcases List.mem_append.mp hxo with hxo1 | hxo2
                    · refine h5 x ?_ hxo1
                      show x ∈ sh.cells ++ allCells t
                      exact List.mem_append_right _ hx
                    · exact (List.nodup_append.mp h4c).2.2 hxo2 hx
              · rw [if_neg hcont]
                constructor
                · rintro ⟨seen2, h⟩
                  exact Except.noConfusion h
                · rintro ⟨h1, _⟩
                  exact (hcont ((h1 sh (List.mem_cons_self _ _)).2.2.2)).elim

theorem validateLoop_seen (rest : List ShipPayload) :
    ∀ (seen : List String) (occ : List Coord) (seen2 : List String),
    validateLoop seen occ rest = .ok seen2 →
      ∀ k, k ∈ seen2 ↔ (k ∈ shipKeys rest ∨ k ∈ seen) := by
  induction rest with
  | nil =>
    intro seen occ seen2 h k
    injection h with h2
    rw [← h2]
    constructor
    · intro hk
      exact Or.inr hk
    · intro hk
      rcases hk with hk1 | hk2
      · cases hk1
      · exact hk2
  | cons sh t ih =>
    intro seen occ seen2 h k
    unfold validateLoop at h
    revert h
    cases hreq : requiredSize SHIP_DEFS sh.key with
    | none =>
      intro h
      exact Except.noConfusion h
    | some sz =>
      simp only []
      by_cases hdup : sh.key ∈ seen
      · rw [if_pos hdup]
        intro h
        exact Except.noConfusion h
      · rw [if_neg hdup]
        by_cases hlen : sh.cells.length ≠ sz
        · rw [if_pos hlen]
          intro h
          exact Except.noConfusion h
        · rw [if_neg hlen]
          by_cases hstraight : ¬ rowsAligned sh.cells ∧ ¬ colsAligned sh.cells
          · rw [if_pos hstraight]
            intro h
            exact Except.noConfusion h
          · rw [if_neg hstraight]
            cases hcc : cellsCheck occ sh.cells with
            | error m =>
              intro h
              exact Except.noConfusion h
            | ok occ2 =>
              simp only []
              by_cases hcont : contiguousOk (rowsAligned sh.cells) sh.cells
              · rw [if_pos hcont]
                intro h
                rw [ih (sh.key :: seen) occ2 seen2 h k]
                show k ∈ shipKeys t ∨ k ∈ sh.key :: seen ↔
                  k ∈ shipKeys (sh :: t) ∨ k ∈ seen
                have hcons : shipKeys (sh :: t) = sh.key :: shipKeys t := rfl
                rw [hcons, List.mem_cons, List.mem_cons]
                tauto
              · rw [if_neg hcont]
                intro h
                exact Except.noConfusion h

theorem missingKey_none_iff (seen : List String) (defs : List ShipDef) :
    missingKey seen defs = none ↔ ∀ d ∈ defs, d.key ∈ seen := by
  induction defs with
  | nil =>
    constructor
    · intro _ d hd
      cases hd
    · intro _
      rfl
  | cons d t ih =>
    unfold missingKey
    by_cases h : d.key ∈ seen
    · rw [if_pos h, ih]
      constructor
      · intro h2 d2 hd2
        rcases List.mem_cons.mp hd2 with rfl | hd3
        · exact h
        · exact h2 d2 hd3
      · intro h2 d2 hd2
        exact h2 d2 (List.mem_cons_of_mem d hd2)
    · rw [if_neg h]
      constructor
      · intro h2
        exact Option.noConfusion h2
      · intro h2
        exact absurd (h2 d (List.mem_cons_self d t)) h

theorem requiredSize_mem (defs : List ShipDef) (k : String) (sz : Nat)
    (h : requiredSize defs k = some sz) : k ∈ defs.map (fun d => d.key) := by
  induction defs with
  | nil => cases h
  | cons d t ih =>
    unfold requiredSize at h
    by_cases he : d.key = k
    · show k ∈ d.key :: t.map (fun d => d.key)
      rw [he]
      exact List.mem_cons_self k _
    · rw [if_neg he] at h
      exact List.mem_cons_of_mem _ (ih h)

/-- The validator accepts exactly the spec-legal submissions. -/
theorem validatePlacement_none_iff (p : List ShipPayload) :
    validatePlacement p = none ↔ specLegalPlacement p := by
  unfold validatePlacement specLegalPlacement
  cases hloop : validateLoop [] [] p with
  | error m =>
    constructor
    · intro h
      exact Option.noConfusion h
    · rintro ⟨h1, h2, h3, h4⟩
      have hex : ∃ seen2, validateLoop [] [] p = .ok seen2 := by
        rw [validateLoop_ok_iff]
        refine ⟨h1, h2, ?_, h3, ?_⟩
        · intro x hx hx2
          cases hx2
        · intro x hx hx2
          cases hx2
      rcases hex with ⟨seen2, hs⟩
      rw [hloop] at hs
      exact Except.noConfusion hs
  | ok seen =>
    simp only []
    have hseen := validateLoop_seen p [] [] seen hloop
    cases hmk : missingKey seen SHIP_DEFS with
    | some kmiss =>
      constructor
      · intro h
        exact Option.noConfusion h
      · rintro ⟨h1, h2, h3, h4⟩
        have hall : ∀ d ∈ SHIP_DEFS, d.key ∈ seen := by
          intro d hd
          rw [hseen d.key]
          exact Or.inl (h4 d hd)
        have hnone := (missingKey_none_iff seen SHIP_DEFS).mpr hall
        rw [hmk] at hnone
        exact Option.noConfusion hnone
    | none =>
      have hall := (missingKey_none_iff seen SHIP_DEFS).mp hmk
      obtain ⟨h1, h2, _, h4, _⟩ :=
        (validateLoop_ok_iff p [] []).mp ⟨seen, hloop⟩
      constructor
      · intro _
        refine ⟨h1, h2, h4, ?_⟩
        intro d hd
        have hk := hall d hd
        rw [hseen d.key] at hk
        rcases hk with hk1 | hk2
        · exact hk1
        · cases hk2
      · intro _
        rfl

theorem allCells_length (p : List ShipPayload) (h : ∀ sh ∈ p, specShipOk sh) :
    (allCells p).length = ((shipKeys p).map sizeOfKey).sum := by
  induction p with
  | nil => rfl
  | cons sh t ih =>
    show (sh.cells ++ allCells t).length
      = (sizeOfKey sh.key :: (shipKeys t).map sizeOfKey).sum
    rw [List.length_append, List.sum_cons,
      ih (fun s hs => h s (List.mem_cons_of_mem _ hs))]
    congr 1
    have h2 := (h sh (List.mem_cons_self _ _)).1
    unfold sizeOfKey
    rw [h2]
    rfl

theorem keys_perm (p : List ShipPayload) (hleg : specLegalPlacement p) :
    (shipKeys p).Perm (SHIP_DEFS.map (fun d => d.key)) := by
  obtain ⟨h1, h2, _, h4⟩ := hleg
  rw [List.perm_ext_iff_of_nodup h2 (by decide)]
  intro k
  constructor
  · intro hk
    obtain ⟨sh, hsh, rfl⟩ := List.mem_map.mp hk
    obtain ⟨hreq, _⟩ := h1 sh hsh
    exact requiredSize_mem SHIP_DEFS sh.key _ hreq
  · intro hk
    obtain ⟨d, hd, rfl⟩ := List.mem_map.mp hk
    exact h4 d hd

theorem legal_17 (p : List ShipPayload) (hleg : specLegalPlacement p) :
    (allCells p).length = 17 := by
  rw [allCells_length p hleg.1]
  have hperm := (keys_perm p hleg).map sizeOfKey
  rw [hperm.sum_eq]
  decide

/-- Claim C7: the placement validator accepts a submission iff every
descriptor is a known, unrepeated kind with the required cell count, lies
straight and in bounds with contiguous cells, no cell is claimed twice
across the submission, and all five required kinds are present; hence
every accepted placement occupies exactly 17 distinct cells. -/
theorem c7_validator (p : List ShipPayload) :
    (validatePlacement p = none ↔ specLegalPlacement p)
    ∧ (validatePlacement p = none →
        (allCells p).length = 17 ∧ (allCells p).Nodup) := by
  refine ⟨validatePlacement_none_iff p, ?_⟩
  intro hval
  have hleg := (validatePlacement_none_iff p).mp hval
  exact ⟨legal_17 p hleg, hleg.2.2.1⟩

/-- Witness for C7: the concrete fleet passes validation and occupies 17
cells. -/
theorem c7_witness :
    validatePlacement fleetP = none ∧ (allCells fleetP).length = 17 :=
  ⟨by decide, ((c7_validator fleetP).2 (by decide)).1⟩
